import Mathlib

/-!
# RMStylusButton: the click-classification loop of `main.c`

A shallow embedding of `src/main.c`:

* `binary64` models the rounding of IEEE-754 double precision (round to nearest,
  ties to even), so that `laterThan` is the C function with its `double`
  arithmetic, one rounding per operation;
* `mainloop_step` is one iteration of the `for (;;)` loop of `mainloop`, as a
  function of the loop variables and of the event returned by `read`;
* `mainloop` runs the iterations over a finite list of events;
* `main_args` is the argument loop of `main`, with `strncmp` of the C library.

Conventions of the model:

* `int` is 32 bits wide and `long` 64; a field of an event or a loop variable is
  the integer it holds, and the two signed computations of the program,
  `n_clicks += 1` and the subtraction of the seconds fields, are reduced modulo
  `2^32` and `2^64` into the range of their type (`wrap32`, `wrap64`), which is
  what the compiled program does where C leaves signed overflow undefined;
* doubles are the rationals they denote; no value of magnitude `2^1024` or more
  arises from integer timestamp fields, so infinities and NaN are not modelled;
* every `double` operation is rounded to binary64 once (no excess precision);
* an event written by `writeEventVals` is recorded by its file descriptor, type,
  code and value; the time stamp taken from `gettimeofday` is not recorded;
* `read` is assumed to deliver one whole event.
-/

namespace RMStylusButton

/-! ## IEEE-754 binary64 rounding -/

/-- The natural number nearest to `n / d`, a tie going to the even neighbour. -/
def roundHalfEven (n d : Nat) : Nat :=
  let q := n / d
  let r := n % d
  if 2 * r < d then q
  else if d < 2 * r then q + 1
  else if q % 2 = 0 then q else q + 1

/-- Binary logarithm of `n` rounded down, by repeated halving (`0` for `n < 2`). -/
def log2Fuel : Nat → Nat → Nat
  | 0, _ => 0
  | fuel + 1, n => if n < 2 then 0 else log2Fuel fuel (n / 2) + 1

/-- Position of the leading bit of `n`. -/
def ilog2 (n : Nat) : Nat := log2Fuel n n

/-- The integer `e` with `2^e ≤ n / d < 2^(e+1)`, for positive `n` and `d`. -/
def floorLog2 (n d : Nat) : Int :=
  if d * 2 ^ (ilog2 n - ilog2 d) ≤ n * 2 ^ (ilog2 d - ilog2 n) then
    (ilog2 n : Int) - (ilog2 d : Int)
  else (ilog2 n : Int) - (ilog2 d : Int) - 1

/-- Rounding of a rational to the nearest binary64 value, ties to even: the
significand has 53 bits and the exponent of the last place is at least `-1074`
(gradual underflow). -/
def binary64 (x : ℚ) : ℚ :=
  if x = 0 then 0 else
  let n := x.num.natAbs
  let d := x.den
  let q : Int := max (floorLog2 n d) (-1022) - 52
  let m := roundHalfEven (n * 2 ^ (-q).toNat) (d * 2 ^ q.toNat)
  (if x < 0 then -1 else 1) * ((m * 2 ^ q.toNat : Nat) : ℚ) / ((2 ^ (-q).toNat : Nat) : ℚ)

/-! ## Events and constants of the Linux input subsystem -/

/-- The fields of `struct input_event` that the program reads: the time stamp
(`input_event_sec`, `input_event_usec`), `type`, `code` and `value`. -/
structure InputEvent where
  sec : Int
  usec : Int
  type : Nat
  code : Nat
  value : Int
deriving DecidableEq, Repr

/-- Event type `EV_SYN` of `linux/input-event-codes.h`. -/
def EV_SYN : Nat := 0x00
/-- Event type `EV_KEY` of `linux/input-event-codes.h`. -/
def EV_KEY : Nat := 0x01
/-- Code `SYN_REPORT` of `linux/input-event-codes.h`. -/
def SYN_REPORT : Nat := 0
/-- Code `BTN_STYLUS` of `linux/input-event-codes.h`. -/
def BTN_STYLUS : Nat := 0x14b
/-- Code `BTN_TOOL_PEN` of `linux/input-event-codes.h`. -/
def BTN_TOOL_PEN : Nat := 0x140
/-- Code `BTN_TOOL_RUBBER` of `linux/input-event-codes.h`. -/
def BTN_TOOL_RUBBER : Nat := 0x141
/-- Code `KEY_LEFTCTRL` of `linux/input-event-codes.h`. -/
def KEY_LEFTCTRL : Nat := 29
/-- Code `KEY_Y` of `linux/input-event-codes.h`. -/
def KEY_Y : Nat := 21
/-- Code `KEY_Z` of `linux/input-event-codes.h`. -/
def KEY_Z : Nat := 44

/-- The literal `0.2` of `#define PRESS_TIMEOUT 0.2`: the double nearest to `1/5`. -/
def PRESS_TIMEOUT : ℚ := binary64 (1 / 5)

/-- The two file descriptors the program writes to. -/
inductive Fd where
  | pen
  | keyboard
deriving DecidableEq, Repr

/-- One `write` of an input event, as issued by `writeEventVals`. -/
structure Written where
  fd : Fd
  type : Nat
  code : Nat
  value : Int
deriving DecidableEq, Repr

/-- The function `writeEventVals(fd, type, code, value)`: one event is written to `fd`. -/
def writeEventVals (fd : Fd) (type code : Nat) (value : Int) : List Written :=
  [⟨fd, type, code, value⟩]

/-- The function `writeUndoRedo(fd_keyboard, redo)`. -/
def writeUndoRedo (fd_keyboard : Fd) (redo : Bool) : List Written :=
  let key_code := if redo then KEY_Y else KEY_Z
  writeEventVals fd_keyboard EV_KEY KEY_LEFTCTRL 1 ++
  writeEventVals fd_keyboard EV_SYN SYN_REPORT 0 ++
  writeEventVals fd_keyboard EV_KEY key_code 1 ++
  writeEventVals fd_keyboard EV_SYN SYN_REPORT 0 ++
  writeEventVals fd_keyboard EV_KEY key_code 0 ++
  writeEventVals fd_keyboard EV_SYN SYN_REPORT 0 ++
  writeEventVals fd_keyboard EV_KEY KEY_LEFTCTRL 0 ++
  writeEventVals fd_keyboard EV_SYN SYN_REPORT 0

/-- The value of an `int` computation whose exact result is `x`: `x` reduced
modulo `2^32` into the range `-2^31 .. 2^31 - 1`. -/
def wrap32 (x : Int) : Int :=
  (x + 2147483648) % 4294967296 - 2147483648

/-- The value of a `long` computation whose exact result is `x`: `x` reduced
modulo `2^64` into the range `-2^63 .. 2^63 - 1`. -/
def wrap64 (x : Int) : Int :=
  (x + 9223372036854775808) % 18446744073709551616 - 9223372036854775808

/-- The double `elapsed` computed in `laterThan`: the difference of the seconds is
a subtraction of two `long` values converted to double, each microsecond field is
converted and divided by `1000000.0`, and the two quotients are subtracted before
the sum. -/
def elapsed (now then_ : InputEvent) : ℚ :=
  binary64
    (binary64 ((wrap64 (now.sec - then_.sec) : Int) : ℚ) +
      binary64
        (binary64 (binary64 (now.usec : ℚ) / 1000000) -
          binary64 (binary64 (then_.usec : ℚ) / 1000000)))

/-- The function `laterThan(now, then, delta)`. -/
def laterThan (now then_ : InputEvent) (delta : ℚ) : Bool :=
  decide (elapsed now then_ > delta)

/-- The loop variables of `mainloop`; `n_clicks` is the value of the `int`, which
the loop keeps in the range of `int` (see `wrap32`). -/
structure LoopState where
  n_clicks : Int
  primed : Bool
  last_click : InputEvent
  eraser_on : Bool
deriving DecidableEq, Repr

/-- The loop variables as initialised before the loop (`last_click = {0}`). -/
def initial : LoopState :=
  { n_clicks := 0, primed := false, last_click := ⟨0, 0, 0, 0, 0⟩, eraser_on := false }

/-- What one iteration of the loop does: the loop variables after it, the events
it wrote, and, when it took the branch of lines 145-162 that reports
"click event detected", the click count it reported. -/
structure Iteration where
  state : LoopState
  written : List Written
  dispatched : Option Int
deriving DecidableEq, Repr

/-- Conversion of a `bool` argument to `signed int`. -/
def boolToInt (b : Bool) : Int := if b then 1 else 0

/-- One iteration of the loop of `mainloop(fd_pen, fd_keyboard, toggle)` on the
event `ev_pen` returned by `read`. -/
def mainloop_step (toggle : Bool) (s : LoopState) (ev_pen : InputEvent) : Iteration :=
  if ev_pen.type = EV_KEY ∧ ev_pen.code = BTN_STYLUS then
    let w := if toggle = false then
      writeEventVals Fd.pen EV_KEY BTN_TOOL_RUBBER ev_pen.value else []
    if ev_pen.value = 1 then
      let n := if s.n_clicks ≠ 0 ∧ laterThan ev_pen s.last_click PRESS_TIMEOUT = true
        then 0 else s.n_clicks
      ⟨{ s with n_clicks := wrap32 (n + 1), last_click := ev_pen, primed := false }, w, none⟩
    else if ev_pen.value = 0 then
      if laterThan ev_pen s.last_click PRESS_TIMEOUT = false then
        ⟨{ s with primed := true, last_click := ev_pen }, w, none⟩
      else
        ⟨{ s with n_clicks := 0, primed := false }, w, none⟩
    else ⟨s, w, none⟩
  else if s.primed = true ∧ ev_pen.type = EV_SYN ∧ ev_pen.code = SYN_REPORT ∧
      laterThan ev_pen s.last_click PRESS_TIMEOUT = true then
    if s.n_clicks = 1 ∧ toggle = true then
      let eraser_on := !s.eraser_on
      let w := writeEventVals Fd.pen EV_KEY BTN_TOOL_RUBBER (boolToInt eraser_on) ++
        (if eraser_on = false then
          writeEventVals Fd.pen EV_KEY BTN_TOOL_PEN 0 ++
          writeEventVals Fd.pen EV_KEY BTN_TOOL_PEN 1
        else [])
      ⟨{ s with eraser_on := eraser_on, n_clicks := 0, primed := false }, w, some s.n_clicks⟩
    else if s.n_clicks > 1 then
      ⟨{ s with n_clicks := 0, primed := false },
        writeUndoRedo Fd.keyboard (decide (s.n_clicks > 2)), some s.n_clicks⟩
    else
      ⟨{ s with n_clicks := 0, primed := false }, [], some s.n_clicks⟩
  else if s.eraser_on = true ∧ ev_pen.type = EV_KEY ∧ ev_pen.code = BTN_TOOL_PEN then
    ⟨s, writeEventVals Fd.pen EV_KEY BTN_TOOL_RUBBER ev_pen.value, none⟩
  else ⟨s, [], none⟩

/-- What a run of the loop over finitely many events does: the loop variables at
the end, all events written, and the click counts reported, in order. -/
structure Trace where
  state : LoopState
  written : List Written
  dispatched : List Int
deriving DecidableEq, Repr

/-- The loop of `mainloop` run over the events `read` returns, first to last. -/
def mainloop (toggle : Bool) : LoopState → List InputEvent → Trace
  | s, [] => ⟨s, [], []⟩
  | s, ev_pen :: rest =>
    let r := mainloop_step toggle s ev_pen
    let t := mainloop toggle r.state rest
    ⟨t.state, r.written ++ t.written, r.dispatched.toList ++ t.dispatched⟩

/-! ## Vocabulary of the specification -/

/-- A press of the stylus button: `EV_KEY`, `BTN_STYLUS`, value 1. -/
def isPress (e : InputEvent) : Prop :=
  e.type = EV_KEY ∧ e.code = BTN_STYLUS ∧ e.value = 1

/-- A release of the stylus button: `EV_KEY`, `BTN_STYLUS`, value 0. -/
def isRelease (e : InputEvent) : Prop :=
  e.type = EV_KEY ∧ e.code = BTN_STYLUS ∧ e.value = 0

/-- A sync report: `EV_SYN`, `SYN_REPORT`. -/
def isSync (e : InputEvent) : Prop :=
  e.type = EV_SYN ∧ e.code = SYN_REPORT

/-- The microsecond field is in the range of a normalised `struct timeval`. -/
def wellTimed (e : InputEvent) : Prop := 0 ≤ e.usec ∧ e.usec < 1000000

/-- The difference of the two time stamps in seconds, in exact arithmetic. -/
def exactElapsed (now then_ : InputEvent) : ℚ :=
  ((now.sec - then_.sec : Int) : ℚ) + ((now.usec : ℚ) - (then_.usec : ℚ)) / 1000000

/-- The subtraction of the seconds fields of the two events does not overflow a
`long`. -/
def secondsFit (now then_ : InputEvent) : Prop :=
  -9223372036854775808 ≤ now.sec - then_.sec ∧ now.sec - then_.sec < 9223372036854775808

/-- The event `e` is stamped less than 0.2 s after `prev`, both with normalised
microseconds and seconds whose difference does not overflow. -/
def strictlyWithin (e prev : InputEvent) : Prop :=
  wellTimed e ∧ wellTimed prev ∧ secondsFit e prev ∧ exactElapsed e prev < 1 / 5

/-- The event `e` is stamped at most 0.2 s after `prev`, both with normalised
microseconds and seconds whose difference does not overflow. -/
def withinWindow (e prev : InputEvent) : Prop :=
  wellTimed e ∧ wellTimed prev ∧ secondsFit e prev ∧ exactElapsed e prev ≤ 1 / 5

/-- The comparator of the program does not find `e` later than `prev` by more
than the window. -/
def notLater (e prev : InputEvent) : Prop :=
  laterThan e prev PRESS_TIMEOUT = false

/-- One click of a burst: a press, the events read before the release, the
release, and the events read after it. -/
structure Click where
  press : InputEvent
  afterPress : List InputEvent
  release : InputEvent
  afterRelease : List InputEvent

/-- The events of a click in the order they are read. -/
def Click.events (c : Click) : List InputEvent :=
  c.press :: c.afterPress ++ c.release :: c.afterRelease

/-- The events of a sequence of clicks in the order they are read. -/
def burstEvents : List Click → List InputEvent
  | [] => []
  | c :: cs => c.events ++ burstEvents cs

/-- A quick click for the window relation `W`: the release is within the window
of the press, and the other events are sync reports within the window of the
button event before them. -/
def QuickClick (W : InputEvent → InputEvent → Prop) (c : Click) : Prop :=
  isPress c.press ∧ isRelease c.release ∧ W c.release c.press ∧
  (∀ y ∈ c.afterPress, isSync y ∧ W y c.press) ∧
  (∀ y ∈ c.afterRelease, isSync y ∧ W y c.release)

/-- A burst of quick clicks for the window relation `W`: every click is quick and
every press but the first is within the window of the release before it
(`prev`, when there is one). -/
def QuickBurst (W : InputEvent → InputEvent → Prop) : Option InputEvent → List Click → Prop
  | _, [] => True
  | prev, c :: cs =>
    (∀ r ∈ prev, W c.press r) ∧ QuickClick W c ∧ QuickBurst W (some c.release) cs

/-- Every release of the stylus button comes after a press, with no other
release between the two; `held` tells whether the last button event was a press. -/
def releasesFollowPresses : Bool → List InputEvent → Prop
  | _, [] => True
  | held, e :: es =>
    if e.type = EV_KEY ∧ e.code = BTN_STYLUS ∧ e.value = 1 then
      releasesFollowPresses true es
    else if e.type = EV_KEY ∧ e.code = BTN_STYLUS ∧ e.value = 0 then
      held = true ∧ releasesFollowPresses false es
    else releasesFollowPresses held es

/-- Number of presses of the stylus button among the events. -/
def pressCount : List InputEvent → Nat
  | [] => 0
  | e :: es =>
    (if e.type = EV_KEY ∧ e.code = BTN_STYLUS ∧ e.value = 1 then 1 else 0) + pressCount es

/-- The event of the given type, code and value stamped `t` microseconds. -/
def eventAt (t : Int) (type code : Nat) (value : Int) : InputEvent :=
  ⟨t / 1000000, t % 1000000, type, code, value⟩

/-- The scenario of the specification, `t0` in microseconds: press at `t0`,
release and sync report at `t0 + 0.05`, press at `t0 + 0.1`, release at
`t0 + 0.12`, sync report at `t0 + 0.3`. -/
def scenario (t0 : Int) : List InputEvent :=
  [eventAt t0 EV_KEY BTN_STYLUS 1,
   eventAt (t0 + 50000) EV_KEY BTN_STYLUS 0,
   eventAt (t0 + 50000) EV_SYN SYN_REPORT 0,
   eventAt (t0 + 100000) EV_KEY BTN_STYLUS 1,
   eventAt (t0 + 120000) EV_KEY BTN_STYLUS 0,
   eventAt (t0 + 300000) EV_SYN SYN_REPORT 0]

/-- The eight events of the Ctrl+`key` chord, all on the keyboard device. -/
def chord (key : Nat) : List Written :=
  [⟨Fd.keyboard, EV_KEY, KEY_LEFTCTRL, 1⟩, ⟨Fd.keyboard, EV_SYN, SYN_REPORT, 0⟩,
   ⟨Fd.keyboard, EV_KEY, key, 1⟩, ⟨Fd.keyboard, EV_SYN, SYN_REPORT, 0⟩,
   ⟨Fd.keyboard, EV_KEY, key, 0⟩, ⟨Fd.keyboard, EV_SYN, SYN_REPORT, 0⟩,
   ⟨Fd.keyboard, EV_KEY, KEY_LEFTCTRL, 0⟩, ⟨Fd.keyboard, EV_SYN, SYN_REPORT, 0⟩]

/-! ## The vocabulary is decidable -/

instance (e : InputEvent) : Decidable (isPress e) :=
  inferInstanceAs (Decidable (_ ∧ _ ∧ _))

instance (e : InputEvent) : Decidable (isRelease e) :=
  inferInstanceAs (Decidable (_ ∧ _ ∧ _))

instance (e : InputEvent) : Decidable (isSync e) :=
  inferInstanceAs (Decidable (_ ∧ _))

instance (e : InputEvent) : Decidable (wellTimed e) :=
  inferInstanceAs (Decidable (_ ∧ _))

instance : DecidableRel secondsFit :=
  fun _ _ => inferInstanceAs (Decidable (_ ∧ _))

instance : DecidableRel strictlyWithin :=
  fun _ _ => inferInstanceAs (Decidable (_ ∧ _ ∧ _ ∧ _))

instance : DecidableRel withinWindow :=
  fun _ _ => inferInstanceAs (Decidable (_ ∧ _ ∧ _ ∧ _))

instance : DecidableRel notLater :=
  fun _ _ => inferInstanceAs (Decidable (_ = _))

instance (W : InputEvent → InputEvent → Prop) [DecidableRel W] (c : Click) :
    Decidable (QuickClick W c) :=
  inferInstanceAs (Decidable (_ ∧ _ ∧ _ ∧ _ ∧ _))

/-- Decision procedure for `QuickBurst`. -/
def QuickBurst.decide (W : InputEvent → InputEvent → Prop) [DecidableRel W] :
    (prev : Option InputEvent) → (cs : List Click) → Decidable (QuickBurst W prev cs)
  | _, [] => isTrue trivial
  | _, c :: cs =>
    have := QuickBurst.decide W (some c.release) cs
    inferInstanceAs (Decidable (_ ∧ _ ∧ _))

instance (W : InputEvent → InputEvent → Prop) [DecidableRel W] (prev : Option InputEvent)
    (cs : List Click) : Decidable (QuickBurst W prev cs) :=
  QuickBurst.decide W prev cs

/-- Decision procedure for `releasesFollowPresses`. -/
def releasesFollowPresses.decide :
    (held : Bool) → (es : List InputEvent) → Decidable (releasesFollowPresses held es)
  | _, [] => isTrue trivial
  | held, _ :: es =>
    have := releasesFollowPresses.decide true es
    have := releasesFollowPresses.decide false es
    have := releasesFollowPresses.decide held es
    inferInstanceAs (Decidable (if _ then _ else if _ then _ else _))

instance (held : Bool) (es : List InputEvent) : Decidable (releasesFollowPresses held es) :=
  releasesFollowPresses.decide held es

/-! ## Sync markers among the events written -/

/-- A written event is a sync marker: `EV_SYN`, `SYN_REPORT`. -/
def isSyncWritten (w : Written) : Prop :=
  w.type = EV_SYN ∧ w.code = SYN_REPORT

instance (w : Written) : Decidable (isSyncWritten w) :=
  inferInstanceAs (Decidable (_ ∧ _))

/-- Every event of the list that is not a sync marker is immediately followed by
a sync marker written to the same file descriptor. -/
def eachFollowedBySync : List Written → Prop
  | [] => True
  | [w] => isSyncWritten w
  | w :: n :: rest =>
    (isSyncWritten w ∨ (isSyncWritten n ∧ n.fd = w.fd)) ∧ eachFollowedBySync (n :: rest)

/-- Decision procedure for `eachFollowedBySync`. -/
def eachFollowedBySync.decide : (ws : List Written) → Decidable (eachFollowedBySync ws)
  | [] => isTrue trivial
  | [w] => inferInstanceAs (Decidable (isSyncWritten w))
  | _ :: n :: rest =>
    have := eachFollowedBySync.decide (n :: rest)
    inferInstanceAs (Decidable (_ ∧ _))

instance (ws : List Written) : Decidable (eachFollowedBySync ws) :=
  eachFollowedBySync.decide ws

/-! ## The command line -/

/-- The function `strncmp(s1, s2, n)` of the C library, on strings given by
their characters; the end of a list stands for the terminating NUL. -/
def strncmp : List Char → List Char → Nat → Int
  | _, _, 0 => 0
  | [], [], _ + 1 => 0
  | [], c :: _, _ + 1 => -(c.toNat : Int)
  | c :: _, [], _ + 1 => (c.toNat : Int)
  | a :: s1, b :: s2, n + 1 =>
    if a = b then strncmp s1 s2 n else (a.toNat : Int) - (b.toNat : Int)

/-- What the argument loop of `main` sets: `toggle_mode`, the global `verbose`,
and the arguments reported on `stderr` as unknown, in order. -/
structure Options where
  toggle_mode : Bool
  verbose : Int
  unknown : List String
deriving DecidableEq, Repr

/-- The body of the argument loop of `main` (lines 179-186) for `argv[i]`. -/
def main_arg (o : Options) (arg : String) : Options :=
  if strncmp arg.toList "--toggle".toList 8 = 0 then
    { o with toggle_mode := true }
  else if strncmp arg.toList "--verbose".toList 9 = 0 ∨
      strncmp arg.toList "-v".toList 2 = 0 then
    { o with verbose := o.verbose + 1 }
  else
    { o with unknown := o.unknown ++ [arg] }

/-- The argument loop of `main` (lines 174-187): `argv[0]` is skipped. -/
def main_args (argv : List String) : Options :=
  (argv.drop 1).foldl main_arg { toggle_mode := false, verbose := 0, unknown := [] }

/-- The argument `arg` begins with the characters of `flag`. -/
def beginsWith (flag arg : String) : Prop :=
  List.IsPrefix flag.toList arg.toList

instance (flag arg : String) : Decidable (beginsWith flag arg) :=
  inferInstanceAs (Decidable (List.IsPrefix _ _))

/-! ## Rounding error of binary64 -/

/-- The rounded quotient is within half a unit of the exact quotient. -/
theorem roundHalfEven_near (n d : Nat) (hd : 0 < d) :
    |((roundHalfEven n d : Nat) : ℚ) - (n : ℚ) / d| ≤ 1 / 2 := by
  have hdq : (0 : ℚ) < d := by exact_mod_cast hd
  have hdiv : (n : ℚ) = (d : ℚ) * ((n / d : Nat) : ℚ) + ((n % d : Nat) : ℚ) := by
    exact_mod_cast (Nat.div_add_mod n d).symm
  have hr : ((n % d : Nat) : ℚ) < d := by exact_mod_cast Nat.mod_lt n hd
  have hr0 : (0 : ℚ) ≤ ((n % d : Nat) : ℚ) := by positivity
  have key : ∀ m : ℚ, |m * d - n| ≤ d / 2 → |m - (n : ℚ) / d| ≤ 1 / 2 := by
    intro m hm
    have : m - (n : ℚ) / d = (m * d - n) / d := by field_simp
    rw [this, abs_div, abs_of_pos hdq, div_le_iff₀ hdq]
    linarith
  apply key
  unfold roundHalfEven
  simp only
  split_ifs with h1 h2 h3
  · have h1q : (2 : ℚ) * ((n % d : Nat) : ℚ) < d := by exact_mod_cast h1
    rw [abs_le]; constructor <;> nlinarith
  · have h2q : (d : ℚ) < 2 * ((n % d : Nat) : ℚ) := by exact_mod_cast h2
    push_cast
    rw [abs_le]; constructor <;> nlinarith
  · have h1q : (d : ℚ) ≤ 2 * ((n % d : Nat) : ℚ) := by exact_mod_cast (not_lt.mp h1)
    have h2q : (2 : ℚ) * ((n % d : Nat) : ℚ) ≤ d := by exact_mod_cast (not_lt.mp h2)
    rw [abs_le]; constructor <;> nlinarith
  · have h1q : (d : ℚ) ≤ 2 * ((n % d : Nat) : ℚ) := by exact_mod_cast (not_lt.mp h1)
    have h2q : (2 : ℚ) * ((n % d : Nat) : ℚ) ≤ d := by exact_mod_cast (not_lt.mp h2)
    push_cast
    rw [abs_le]; constructor <;> nlinarith

theorem log2Fuel_bounds (fuel : Nat) : ∀ n : Nat, 0 < n → n ≤ fuel →
    2 ^ log2Fuel fuel n ≤ n ∧ n < 2 ^ (log2Fuel fuel n + 1) := by
  induction fuel with
  | zero => intro n h0 h1; omega
  | succ f ih =>
    intro n h0 h1
    unfold log2Fuel
    split_ifs with h
    · constructor <;> simp <;> omega
    · have hh := ih (n / 2) (by omega) (by omega)
      obtain ⟨ha, hb⟩ := hh
      constructor
      · rw [pow_succ]; omega
      · rw [pow_succ]; omega

theorem ilog2_bounds (n : Nat) (h : 0 < n) : 2 ^ ilog2 n ≤ n ∧ n < 2 ^ (ilog2 n + 1) :=
  log2Fuel_bounds n n h le_rfl


/-- Lower bound of `floorLog2`: `2^(floorLog2 n d) ≤ n / d`. -/
theorem floorLog2_le (n d : Nat) (hn : 0 < n) (hd : 0 < d) :
    (2 : ℚ) ^ floorLog2 n d ≤ (n : ℚ) / d := by
  have hdq : (0 : ℚ) < d := by exact_mod_cast hd
  have hnq : (0 : ℚ) < n := by exact_mod_cast hn
  obtain ⟨ha, -⟩ := ilog2_bounds n hn
  obtain ⟨-, hb⟩ := ilog2_bounds d hd
  have haq : (2 : ℚ) ^ ilog2 n ≤ n := by exact_mod_cast ha
  have hbq : (d : ℚ) < 2 ^ (ilog2 d + 1) := by exact_mod_cast hb
  have h2 : (2 : ℚ) ≠ 0 := by norm_num
  unfold floorLog2
  split_ifs with h
  · have hq : (d : ℚ) * 2 ^ (ilog2 n - ilog2 d) ≤ (n : ℚ) * 2 ^ (ilog2 d - ilog2 n) := by
      exact_mod_cast h
    rw [zpow_sub₀ h2, zpow_natCast, zpow_natCast, le_div_iff₀ hdq]
    rcases le_total (ilog2 n) (ilog2 d) with hab | hab
    · obtain ⟨k, hk⟩ := Nat.exists_eq_add_of_le hab
      rw [hk] at hq ⊢
      simp only [Nat.sub_add_eq, Nat.sub_self, Nat.zero_sub, pow_zero, mul_one,
        Nat.add_sub_cancel_left] at hq
      rw [pow_add, div_mul_eq_mul_div, div_le_iff₀ (by positivity)]
      nlinarith [pow_pos (show (0 : ℚ) < 2 by norm_num) (ilog2 n)]
    · obtain ⟨k, hk⟩ := Nat.exists_eq_add_of_le hab
      rw [hk] at hq ⊢
      simp only [Nat.sub_add_eq, Nat.sub_self, Nat.zero_sub, pow_zero, mul_one,
        Nat.add_sub_cancel_left] at hq
      have e : (2 : ℚ) ^ ilog2 d * 2 ^ k / 2 ^ ilog2 d = 2 ^ k := by
        field_simp
      rw [pow_add, e]
      linarith
  · have e : (ilog2 n : ℤ) - (ilog2 d : ℤ) - 1 = (ilog2 n : ℤ) - ((ilog2 d + 1 : ℕ) : ℤ) := by
      push_cast; ring
    rw [e, zpow_sub₀ h2, zpow_natCast, zpow_natCast]
    calc (2 : ℚ) ^ ilog2 n / 2 ^ (ilog2 d + 1) ≤ (n : ℚ) / 2 ^ (ilog2 d + 1) := by
          apply div_le_div_of_nonneg_right haq (by positivity)
      _ ≤ (n : ℚ) / d := by
          apply div_le_div_of_nonneg_left (le_of_lt hnq) hdq (le_of_lt hbq)


theorem two_pow_toNat_div (q : ℤ) : (2 : ℚ) ^ q.toNat / 2 ^ (-q).toNat = (2 : ℚ) ^ q := by
  rcases le_total 0 q with h | h
  · lift q to ℕ using h
    simp
  · obtain ⟨k, rfl⟩ : ∃ k : ℕ, q = -(k : ℤ) := ⟨(-q).toNat, by omega⟩
    simp [zpow_neg]

/-- Rounding to binary64 changes a value by at most half a unit in the last place:
a relative error of `2^-53`, or `2^-1075` in the subnormal range. -/
theorem binary64_err (x : ℚ) : |binary64 x - x| ≤ |x| / 2 ^ 53 + 1 / 2 ^ 1075 := by
  by_cases hx : x = 0
  · subst hx
    simp [binary64]
  have hd : 0 < x.den := x.den_pos
  have hn : 0 < x.num.natAbs := Int.natAbs_pos.mpr (Rat.num_ne_zero.mpr hx)
  have hdq : (0 : ℚ) < x.den := by exact_mod_cast hd
  have habs : |x| = (x.num.natAbs : ℚ) / x.den := by
    conv_lhs => rw [← Rat.num_div_den x]
    rw [abs_div, Nat.cast_natAbs, Int.cast_abs, abs_of_pos hdq]
  have hfl := floorLog2_le x.num.natAbs x.den hn hd
  unfold binary64
  rw [if_neg hx]
  simp only
  generalize hq : max (floorLog2 x.num.natAbs x.den) (-1022) - 52 = q
  have hm := roundHalfEven_near (x.num.natAbs * 2 ^ (-q).toNat) (x.den * 2 ^ q.toNat)
    (by positivity)
  generalize roundHalfEven (x.num.natAbs * 2 ^ (-q).toNat) (x.den * 2 ^ q.toNat) = m at hm ⊢
  have hPQ := two_pow_toNat_div q
  push_cast at hm ⊢
  have hP : (0 : ℚ) < 2 ^ q.toNat := by positivity
  have hQ : (0 : ℚ) < 2 ^ (-q).toNat := by positivity
  have hx' : x = (if x < 0 then -1 else 1) * ((x.num.natAbs : ℚ) / x.den) := by
    split_ifs with h
    · rw [← habs, abs_of_neg h]; ring
    · rw [← habs, abs_of_nonneg (not_lt.mp h)]; ring
  have hgen : ∀ sg : ℚ, sg * ((m : ℚ) * 2 ^ q.toNat) / 2 ^ (-q).toNat
        - sg * ((x.num.natAbs : ℚ) / x.den)
      = sg * ((2 ^ q.toNat / 2 ^ (-q).toNat) *
        ((m : ℚ) - (x.num.natAbs : ℚ) * 2 ^ (-q).toNat / (x.den * 2 ^ q.toNat))) := by
    intro sg
    field_simp
    ring
  have hsplit : (if x < 0 then (-1 : ℚ) else 1) * ((m : ℚ) * 2 ^ q.toNat) / 2 ^ (-q).toNat - x
      = (if x < 0 then (-1 : ℚ) else 1) * ((2 ^ q.toNat / 2 ^ (-q).toNat) *
        ((m : ℚ) - (x.num.natAbs : ℚ) * 2 ^ (-q).toNat / (x.den * 2 ^ q.toNat))) := by
    rw [← hgen, ← hx']
  have hs : |(if x < 0 then (-1 : ℚ) else 1)| = 1 := by split_ifs <;> simp
  rw [hsplit, abs_mul, hs, one_mul, abs_mul, hPQ, abs_of_pos (zpow_pos (by norm_num) q)]
  have h1 : (2 : ℚ) ^ q * |(m : ℚ) - (x.num.natAbs : ℚ) * 2 ^ (-q).toNat / (x.den * 2 ^ q.toNat)|
      ≤ (2 : ℚ) ^ q * (1 / 2) :=
    mul_le_mul_of_nonneg_left hm (le_of_lt (zpow_pos (by norm_num) q))
  have h2 : (2 : ℚ) ^ q * (1 / 2) ≤ |x| / 2 ^ 53 + 1 / 2 ^ 1075 := by
    rcases le_total (-1022) (floorLog2 x.num.natAbs x.den) with h | h
    · rw [max_eq_left h] at hq
      have e : (2 : ℚ) ^ q = 2 ^ floorLog2 x.num.natAbs x.den / 2 ^ 52 := by
        rw [← hq, zpow_sub₀ (by norm_num)]; norm_cast
      have : (2 : ℚ) ^ q * (1 / 2) ≤ |x| / 2 ^ 53 := by
        rw [e, habs]
        have : (2 : ℚ) ^ 53 = 2 ^ 52 * 2 := by norm_num
        rw [this, div_mul_div_comm, mul_one, ← div_div, ← div_div]
        apply div_le_div_of_nonneg_right _ (by norm_num)
        apply div_le_div_of_nonneg_right hfl (by positivity)
      have : (0 : ℚ) ≤ 1 / 2 ^ 1075 := by positivity
      linarith
    · rw [max_eq_right h] at hq
      have e : (2 : ℚ) ^ q * (1 / 2) = 1 / 2 ^ 1075 := by
        rw [← hq]
        have : (-1022 : ℤ) - 52 = -((1074 : ℕ) : ℤ) := by norm_num
        rw [this, zpow_neg, zpow_natCast]
        have : (2 : ℚ) ^ 1075 = 2 ^ 1074 * 2 := by rw [← pow_succ]
        rw [this]
        field_simp
      have : (0 : ℚ) ≤ |x| / 2 ^ 53 := by positivity
      linarith
  linarith


/-- Upper bound of `floorLog2`: `n / d < 2^(floorLog2 n d + 1)`. -/
theorem floorLog2_lt (n d : Nat) (hn : 0 < n) (hd : 0 < d) :
    (n : ℚ) / d < (2 : ℚ) ^ (floorLog2 n d + 1) := by
  have hdq : (0 : ℚ) < d := by exact_mod_cast hd
  have hnq : (0 : ℚ) < n := by exact_mod_cast hn
  obtain ⟨-, ha⟩ := ilog2_bounds n hn
  obtain ⟨hb, -⟩ := ilog2_bounds d hd
  have haq : (n : ℚ) < 2 ^ (ilog2 n + 1) := by exact_mod_cast ha
  have hbq : (2 : ℚ) ^ ilog2 d ≤ d := by exact_mod_cast hb
  have h2 : (2 : ℚ) ≠ 0 := by norm_num
  unfold floorLog2
  split_ifs with h
  · have e : (ilog2 n : ℤ) - (ilog2 d : ℤ) + 1 = ((ilog2 n + 1 : ℕ) : ℤ) - (ilog2 d : ℤ) := by
      push_cast; ring
    rw [e, zpow_sub₀ h2, zpow_natCast, zpow_natCast]
    calc (n : ℚ) / d < 2 ^ (ilog2 n + 1) / d := div_lt_div_of_pos_right haq hdq
      _ ≤ 2 ^ (ilog2 n + 1) / 2 ^ ilog2 d :=
          div_le_div_of_nonneg_left (by positivity) (by positivity) hbq
  · have hq : (n : ℚ) * 2 ^ (ilog2 d - ilog2 n) < (d : ℚ) * 2 ^ (ilog2 n - ilog2 d) := by
      exact_mod_cast not_le.mp h
    have e : (ilog2 n : ℤ) - (ilog2 d : ℤ) - 1 + 1 = (ilog2 n : ℤ) - (ilog2 d : ℤ) := by ring
    rw [e, zpow_sub₀ h2, zpow_natCast, zpow_natCast, div_lt_iff₀ hdq]
    rcases le_total (ilog2 n) (ilog2 d) with hab | hab
    · obtain ⟨k, hk⟩ := Nat.exists_eq_add_of_le hab
      rw [hk] at hq ⊢
      simp only [Nat.sub_add_eq, Nat.sub_self, Nat.zero_sub, pow_zero, mul_one,
        Nat.add_sub_cancel_left] at hq
      have e2 : (2 : ℚ) ^ ilog2 n / 2 ^ (ilog2 n + k) * d = d / 2 ^ k := by
        rw [pow_add]; field_simp; ring
      rw [e2, lt_div_iff₀ (by positivity)]
      exact hq
    · obtain ⟨k, hk⟩ := Nat.exists_eq_add_of_le hab
      rw [hk] at hq ⊢
      simp only [Nat.sub_add_eq, Nat.sub_self, Nat.zero_sub, pow_zero, mul_one,
        Nat.add_sub_cancel_left] at hq
      have e2 : (2 : ℚ) ^ (ilog2 d + k) / 2 ^ ilog2 d * d = d * 2 ^ k := by
        rw [pow_add]; field_simp; ring
      rw [e2]
      exact hq

theorem roundHalfEven_le (n d k : Nat) (hd : 0 < d) (h : n < k * d) :
    roundHalfEven n d ≤ k := by
  have h1 : n / d < k := (Nat.div_lt_iff_lt_mul hd).mpr h
  unfold roundHalfEven
  simp only
  split_ifs <;> omega

theorem le_roundHalfEven (n d k : Nat) (hd : 0 < d) (h : k * d ≤ n) :
    k ≤ roundHalfEven n d := by
  have h1 : k ≤ n / d := (Nat.le_div_iff_mul_le hd).mpr h
  unfold roundHalfEven
  simp only
  split_ifs <;> omega

theorem roundHalfEven_tie (n d : Nat) (hd : 0 < d)
    (h : |((roundHalfEven n d : Nat) : ℚ) - (n : ℚ) / d| = 1 / 2) :
    Even (roundHalfEven n d) := by
  have hdq : (0 : ℚ) < d := by exact_mod_cast hd
  have hdiv : (n : ℚ) = (d : ℚ) * ((n / d : Nat) : ℚ) + ((n % d : Nat) : ℚ) := by
    exact_mod_cast (Nat.div_add_mod n d).symm
  have hr0 : (0 : ℚ) ≤ ((n % d : Nat) : ℚ) := by positivity
  have hr1 : ((n % d : Nat) : ℚ) < d := by exact_mod_cast Nat.mod_lt n hd
  have key : ∀ m : ℚ, m - (n : ℚ) / d = (m * d - n) / d := by
    intro m; field_simp
  rw [key, abs_div, abs_of_pos hdq, div_eq_iff (ne_of_gt hdq)] at h
  unfold roundHalfEven at h ⊢
  simp only at h ⊢
  split_ifs at h ⊢ with h1 h2 h3
  · exfalso
    have h1q : (2 : ℚ) * ((n % d : Nat) : ℚ) < d := by exact_mod_cast h1
    have : ((n / d : Nat) : ℚ) * d - n = -((n % d : Nat) : ℚ) := by rw [hdiv]; ring
    rw [this, abs_neg, abs_of_nonneg hr0] at h
    linarith
  · exfalso
    have h2q : (d : ℚ) < 2 * ((n % d : Nat) : ℚ) := by exact_mod_cast h2
    have : ((n / d + 1 : Nat) : ℚ) * d - n = d - ((n % d : Nat) : ℚ) := by
      rw [hdiv]; push_cast; ring
    rw [this, abs_of_nonneg (by linarith)] at h
    linarith
  · exact Nat.even_iff.mpr h3
  · exact Nat.even_iff.mpr (by omega)

/-- The function `binary64` is rounding to nearest, ties to even, in the binary64
format: for `x ≠ 0` with `2^e ≤ |x| < 2^(e+1)`, the result is `± m * 2^q` where
`q = max e (-1022) - 52`, the natural number `m` is at most `2^53` (and at least
`2^52` for `e ≥ -1022`), `m` is within 1/2 of `|x| / 2^q`, and `m` is even when it
is exactly 1/2 away. -/
theorem binary64_spec (x : ℚ) (hx : x ≠ 0) :
    ∃ (e : ℤ) (m : ℕ),
      (2 : ℚ) ^ e ≤ |x| ∧ |x| < (2 : ℚ) ^ (e + 1) ∧
      m ≤ 2 ^ 53 ∧ (-1022 ≤ e → 2 ^ 52 ≤ m) ∧
      |(m : ℚ) - |x| / (2 : ℚ) ^ (max e (-1022) - 52)| ≤ 1 / 2 ∧
      (|(m : ℚ) - |x| / (2 : ℚ) ^ (max e (-1022) - 52)| = 1 / 2 → Even m) ∧
      binary64 x = (if x < 0 then -1 else 1) * (m : ℚ) * (2 : ℚ) ^ (max e (-1022) - 52) := by
  have hd : 0 < x.den := x.den_pos
  have hn : 0 < x.num.natAbs := Int.natAbs_pos.mpr (Rat.num_ne_zero.mpr hx)
  have hdq : (0 : ℚ) < x.den := by exact_mod_cast hd
  have habs : |x| = (x.num.natAbs : ℚ) / x.den := by
    conv_lhs => rw [← Rat.num_div_den x]
    rw [abs_div, Nat.cast_natAbs, Int.cast_abs, abs_of_pos hdq]
  have hlo := floorLog2_le x.num.natAbs x.den hn hd
  have hhi := floorLog2_lt x.num.natAbs x.den hn hd
  refine ⟨floorLog2 x.num.natAbs x.den,
    roundHalfEven (x.num.natAbs * 2 ^ (-(max (floorLog2 x.num.natAbs x.den) (-1022) - 52)).toNat)
      (x.den * 2 ^ (max (floorLog2 x.num.natAbs x.den) (-1022) - 52).toNat), ?_⟩
  generalize hq : max (floorLog2 x.num.natAbs x.den) (-1022) - 52 = q
  generalize hfl : floorLog2 x.num.natAbs x.den = fl at hlo hhi hq
  have hPQ := two_pow_toNat_div q
  have hP : (0 : ℚ) < 2 ^ q.toNat := by positivity
  have hQ : (0 : ℚ) < 2 ^ (-q).toNat := by positivity
  have hsd : 0 < x.den * 2 ^ q.toNat := by positivity
  -- the scaled value `|x| / 2^q` as the quotient that is rounded
  have hs : |x| / (2 : ℚ) ^ q =
      ((x.num.natAbs * 2 ^ (-q).toNat : ℕ) : ℚ) / ((x.den * 2 ^ q.toNat : ℕ) : ℚ) := by
    rw [habs, ← hPQ]
    push_cast
    field_simp
  have h2q : (0 : ℚ) < (2 : ℚ) ^ q := zpow_pos (by norm_num) q
  -- `|x| / 2^q < 2^53`
  have hup : |x| / (2 : ℚ) ^ q < 2 ^ 53 := by
    rw [div_lt_iff₀ h2q]
    have e1 : (2 : ℚ) ^ 53 * 2 ^ q = 2 ^ (q + 53) := by
      rw [zpow_add₀ (by norm_num)]; norm_cast; ring
    rw [e1, habs]
    refine lt_of_lt_of_le hhi (zpow_le_zpow_right₀ (by norm_num) ?_)
    rw [← hq]
    have := le_max_left fl (-1022)
    omega
  refine ⟨by rw [habs]; exact hlo, by rw [habs]; exact hhi, ?_, ?_, ?_, ?_, ?_⟩
  · apply roundHalfEven_le _ _ _ hsd
    rw [hs, div_lt_iff₀ (by exact_mod_cast hsd)] at hup
    exact_mod_cast hup
  · intro hnorm
    apply le_roundHalfEven _ _ _ hsd
    have hq' : q = fl - 52 := by rw [← hq, max_eq_left hnorm]
    have hlow : (2 : ℚ) ^ 52 ≤ |x| / (2 : ℚ) ^ q := by
      rw [le_div_iff₀ h2q]
      have e1 : (2 : ℚ) ^ 52 * 2 ^ q = 2 ^ fl := by
        rw [hq', zpow_sub₀ (by norm_num)]; norm_cast; field_simp
      rw [e1, habs]; exact hlo
    rw [hs, le_div_iff₀ (by exact_mod_cast hsd)] at hlow
    exact_mod_cast hlow
  · rw [hs]
    exact roundHalfEven_near _ _ hsd
  · rw [hs]
    exact roundHalfEven_tie _ _ hsd
  · unfold binary64
    rw [if_neg hx]
    simp only
    rw [hfl, hq, ← hPQ]
    push_cast
    field_simp

/-- The double of the literal `0.2` is `0x3FC999999999999A`, slightly above 1/5. -/
theorem PRESS_TIMEOUT_eq : PRESS_TIMEOUT = 3602879701896397 / 18014398509481984 := by
  decide!

/-- A convenient form of the rounding error: at most `(B + 1) / 2^53` for `|x| ≤ B`. -/
theorem binary64_near (x B : ℚ) (h : |x| ≤ B) : |binary64 x - x| ≤ (B + 1) / 2 ^ 53 := by
  have h1 := binary64_err x
  have h2 : (1 : ℚ) / 2 ^ 1075 ≤ 1 / 2 ^ 53 :=
    one_div_le_one_div_of_le (by positivity) (pow_le_pow_right₀ (by norm_num) (by norm_num))
  have h3 : |x| / 2 ^ 53 ≤ B / 2 ^ 53 := div_le_div_of_nonneg_right h (by positivity)
  have h4 : (B + 1) / 2 ^ 53 = B / 2 ^ 53 + 1 / 2 ^ 53 := by ring
  linarith

/-- The quotient `usec / 1000000.0` computed in double precision. -/
theorem usec_quotient_near (u : Int) (h0 : 0 ≤ u) (h1 : u < 1000000) :
    |binary64 (binary64 (u : ℚ) / 1000000) - (u : ℚ) / 1000000| ≤ 5 / 2 ^ 53 := by
  have hu0 : (0 : ℚ) ≤ u := by exact_mod_cast h0
  have hu1 : (u : ℚ) < 1000000 := by exact_mod_cast h1
  have e1 := binary64_near (u : ℚ) 1000000 (by rw [abs_le]; constructor <;> linarith)
  rw [abs_le] at e1
  obtain ⟨e1a, e1b⟩ := e1
  have e2 := binary64_near (binary64 (u : ℚ) / 1000000) 2
    (by rw [abs_le]; constructor <;> norm_num at e1a e1b ⊢ <;> linarith)
  rw [abs_le] at e2 ⊢
  obtain ⟨e2a, e2b⟩ := e2
  constructor <;> norm_num at e1a e1b e2a e2b ⊢ <;> linarith

/-- A value in the range of `int` is what `wrap32` returns for it. -/
theorem wrap32_of_fit (x : Int) (h1 : -2147483648 ≤ x) (h2 : x < 2147483648) :
    wrap32 x = x := by
  unfold wrap32
  omega

/-- A value in the range of `long` is what `wrap64` returns for it. -/
theorem wrap64_of_fit (x : Int) (h1 : -9223372036854775808 ≤ x)
    (h2 : x < 9223372036854775808) : wrap64 x = x := by
  unfold wrap64
  omega

/-- Where the subtraction of the seconds overflows, the difference wraps to a
negative `long`: an event stamped `LONG_MAX` seconds is not later than one
stamped `-1` seconds. -/
theorem laterThan_seconds_overflow :
    laterThan ⟨9223372036854775807, 0, EV_SYN, SYN_REPORT, 0⟩ ⟨-1, 0, EV_KEY, BTN_STYLUS, 0⟩
      PRESS_TIMEOUT = false := by
  decide!

/-- The double `elapsed` of `laterThan` is within `(|Δsec| + 3) / 2^50` of the exact
difference of the time stamps, when the subtraction of the seconds does not
overflow. -/
theorem elapsed_near (a b : InputEvent) (ha : wellTimed a) (hb : wellTimed b)
    (hf : secondsFit a b) :
    |elapsed a b - exactElapsed a b| ≤ (|((a.sec - b.sec : Int) : ℚ)| + 3) / 2 ^ 50 := by
  obtain ⟨ha0, ha1⟩ := ha
  obtain ⟨hb0, hb1⟩ := hb
  have qa := usec_quotient_near a.usec ha0 ha1
  have qb := usec_quotient_near b.usec hb0 hb1
  have hua0 : (0 : ℚ) ≤ a.usec := by exact_mod_cast ha0
  have hua1 : (a.usec : ℚ) < 1000000 := by exact_mod_cast ha1
  have hub0 : (0 : ℚ) ≤ b.usec := by exact_mod_cast hb0
  have hub1 : (b.usec : ℚ) < 1000000 := by exact_mod_cast hb1
  unfold elapsed exactElapsed
  rw [wrap64_of_fit _ hf.1 hf.2]
  generalize binary64 (binary64 (a.usec : ℚ) / 1000000) = qa' at qa ⊢
  generalize binary64 (binary64 (b.usec : ℚ) / 1000000) = qb' at qb ⊢
  generalize ((a.sec - b.sec : Int) : ℚ) = D
  rw [abs_le] at qa qb
  obtain ⟨qa1, qa2⟩ := qa
  obtain ⟨qb1, qb2⟩ := qb
  have er := binary64_near (qa' - qb') 2
    (by rw [abs_le]; constructor <;> norm_num at qa1 qa2 qb1 qb2 ⊢ <;> linarith)
  generalize binary64 (qa' - qb') = r at er ⊢
  rw [abs_le] at er
  obtain ⟨er1, er2⟩ := er
  have eD := binary64_near D |D| le_rfl
  generalize binary64 D = Dd at eD ⊢
  rw [abs_le] at eD
  obtain ⟨eD1, eD2⟩ := eD
  have hD0 : 0 ≤ |D| := abs_nonneg D
  have hD1 : D ≤ |D| := le_abs_self D
  have hD2 : -|D| ≤ D := neg_abs_le D
  have ey := binary64_near (Dd + r) (2 * |D| + 2)
    (by rw [abs_le]; constructor <;> norm_num at qa1 qa2 qb1 qb2 er1 er2 eD1 eD2 ⊢ <;> linarith)
  generalize binary64 (Dd + r) = e at ey ⊢
  rw [abs_le] at ey ⊢
  obtain ⟨ey1, ey2⟩ := ey
  constructor <;> norm_num at qa1 qa2 qb1 qb2 er1 er2 eD1 eD2 ey1 ey2 ⊢ <;> linarith


theorem PRESS_TIMEOUT_near : |PRESS_TIMEOUT - 1 / 5| ≤ 2 / 2 ^ 53 := by
  have h := binary64_near (1 / 5) 1 (by rw [abs_le]; constructor <;> norm_num)
  have h2 : ((1 : ℚ) + 1) = 2 := by norm_num
  rw [h2] at h
  exact h

/-- Unless the two time stamps are exactly 200000 microseconds apart, the double
comparison of `laterThan` against `PRESS_TIMEOUT` agrees with exact arithmetic,
when the subtraction of the seconds does not overflow. -/
theorem laterThan_iff_exact (a b : InputEvent) (ha : wellTimed a) (hb : wellTimed b)
    (hf : secondsFit a b) (hne : exactElapsed a b ≠ 1 / 5) :
    laterThan a b PRESS_TIMEOUT = true ↔ exactElapsed a b > 1 / 5 := by
  have hE := elapsed_near a b ha hb hf
  have hc := PRESS_TIMEOUT_near
  obtain ⟨ha0, ha1⟩ := ha
  obtain ⟨hb0, hb1⟩ := hb
  unfold laterThan
  rw [decide_eq_true_iff]
  have hx : exactElapsed a b =
      ((1000000 * (a.sec - b.sec) + a.usec - b.usec : Int) : ℚ) / 1000000 := by
    unfold exactElapsed; push_cast; ring
  generalize elapsed a b = e at hE ⊢
  generalize PRESS_TIMEOUT = c at hc ⊢
  rw [hx] at hne hE ⊢
  generalize hD : a.sec - b.sec = D at hne hE ⊢
  rw [abs_le] at hE hc
  obtain ⟨hE1, hE2⟩ := hE
  obtain ⟨hc1, hc2⟩ := hc
  have hK : 1000000 * D + a.usec - b.usec ≠ 200000 := by
    intro h
    apply hne
    rw [h]; norm_num
  rcases lt_or_gt_of_ne hK with hlt | hgt
  · have hle : 1000000 * D + a.usec - b.usec ≤ 199999 := by omega
    have hD1 : D ≤ 1 := by omega
    have hleq : ((1000000 * D + a.usec - b.usec : Int) : ℚ) ≤ 199999 := by exact_mod_cast hle
    have hlo : (1000000 * D - 1000000 : ℚ) ≤ ((1000000 * D + a.usec - b.usec : Int) : ℚ) := by
      have : 1000000 * D - 1000000 ≤ 1000000 * D + a.usec - b.usec := by omega
      exact_mod_cast this
    have hup : ((1000000 * D + a.usec - b.usec : Int) : ℚ) ≤ (1000000 * D + 1000000 : ℚ) := by
      have : 1000000 * D + a.usec - b.usec ≤ 1000000 * D + 1000000 := by omega
      exact_mod_cast this
    have hD1q : (D : ℚ) ≤ 1 := by exact_mod_cast hD1
    generalize ((1000000 * D + a.usec - b.usec : Int) : ℚ) = K at *
    have r1 : ¬ (K / 1000000 > 1 / 5) := by
      rw [not_lt, div_le_iff₀ (by norm_num)]; linarith
    have r2 : ¬ (e > c) := by
      rw [not_lt]
      rcases le_total 0 (D : ℚ) with h0 | h0
      · rw [abs_of_nonneg h0] at hE1 hE2
        norm_num at hE1 hE2 hc1 hc2 ⊢
        linarith
      · rw [abs_of_nonpos h0] at hE1 hE2
        norm_num at hE1 hE2 hc1 hc2 ⊢
        rcases le_or_lt (-1 : ℚ) (D : ℚ) with h1 | h1
        · linarith
        · have : (D : ℚ) ≤ -2 := by
            have : D < -1 := by exact_mod_cast h1
            have : D ≤ -2 := by omega
            exact_mod_cast this
          linarith
    exact ⟨fun h => absurd h r2, fun h => absurd h r1⟩
  · have hge : 200001 ≤ 1000000 * D + a.usec - b.usec := by omega
    have hD0 : 0 ≤ D := by omega
    have hgeq : (200001 : ℚ) ≤ ((1000000 * D + a.usec - b.usec : Int) : ℚ) := by
      exact_mod_cast hge
    have hlo : (1000000 * D - 1000000 : ℚ) ≤ ((1000000 * D + a.usec - b.usec : Int) : ℚ) := by
      have : 1000000 * D - 1000000 ≤ 1000000 * D + a.usec - b.usec := by omega
      exact_mod_cast this
    have hD0q : (0 : ℚ) ≤ D := by exact_mod_cast hD0
    generalize ((1000000 * D + a.usec - b.usec : Int) : ℚ) = K at *
    have r1 : K / 1000000 > 1 / 5 := by
      rw [gt_iff_lt, lt_div_iff₀ (by norm_num)]; linarith
    have r2 : e > c := by
      rw [abs_of_nonneg hD0q] at hE1 hE2
      norm_num at hE1 hE2 hc1 hc2 ⊢
      rcases le_or_lt (D : ℚ) 1 with h1 | h1
      · linarith
      · have : (2 : ℚ) ≤ D := by
          have : 1 < D := by exact_mod_cast h1
          have : 2 ≤ D := by omega
          exact_mod_cast this
        linarith
    exact ⟨fun _ => r1, fun _ => r2⟩

/-! ## One iteration of the loop, branch by branch -/

/-- The press branch of the loop body (lines 128-135). -/
theorem step_press (toggle : Bool) (s : LoopState) (ev : InputEvent) (h : isPress ev) :
    mainloop_step toggle s ev =
      ⟨{ s with
          n_clicks := wrap32 ((if s.n_clicks ≠ 0 ∧
            laterThan ev s.last_click PRESS_TIMEOUT = true then 0 else s.n_clicks) + 1),
          last_click := ev, primed := false },
        if toggle = false then [⟨Fd.pen, EV_KEY, BTN_TOOL_RUBBER, 1⟩] else [], none⟩ := by
  obtain ⟨h1, h2, h3⟩ := h
  simp [mainloop_step, h1, h2, h3, writeEventVals]

/-- The release branch of the loop body (lines 136-143). -/
theorem step_release (toggle : Bool) (s : LoopState) (ev : InputEvent) (h : isRelease ev) :
    mainloop_step toggle s ev =
      ⟨if laterThan ev s.last_click PRESS_TIMEOUT = false
          then { s with primed := true, last_click := ev }
          else { s with n_clicks := 0, primed := false },
        if toggle = false then [⟨Fd.pen, EV_KEY, BTN_TOOL_RUBBER, 0⟩] else [], none⟩ := by
  obtain ⟨h1, h2, h3⟩ := h
  simp only [mainloop_step, h1, h2, h3, writeEventVals]
  split_ifs <;> simp_all

/-- The dispatch branch of the loop body (lines 145-162). -/
theorem step_sync_dispatch (toggle : Bool) (s : LoopState) (ev : InputEvent)
    (hp : s.primed = true) (hs : isSync ev)
    (hl : laterThan ev s.last_click PRESS_TIMEOUT = true) :
    mainloop_step toggle s ev =
      if s.n_clicks = 1 ∧ toggle = true then
        ⟨{ s with eraser_on := !s.eraser_on, n_clicks := 0, primed := false },
          ⟨Fd.pen, EV_KEY, BTN_TOOL_RUBBER, boolToInt (!s.eraser_on)⟩ ::
            (if s.eraser_on = true then
              [⟨Fd.pen, EV_KEY, BTN_TOOL_PEN, 0⟩, ⟨Fd.pen, EV_KEY, BTN_TOOL_PEN, 1⟩]
            else []),
          some s.n_clicks⟩
      else if s.n_clicks > 1 then
        ⟨{ s with n_clicks := 0, primed := false },
          chord (if s.n_clicks > 2 then KEY_Y else KEY_Z), some s.n_clicks⟩
      else ⟨{ s with n_clicks := 0, primed := false }, [], some s.n_clicks⟩ := by
  obtain ⟨h1, h2⟩ := hs
  have hne : ¬ (EV_SYN = EV_KEY) := by decide
  simp only [mainloop_step, h1, h2, hp, hl, hne, false_and, if_false, true_and, and_self,
    if_true, writeEventVals, writeUndoRedo, chord]
  split_ifs <;> simp_all

/-- A sync report that does not meet the dispatch condition does nothing. -/
theorem step_sync_idle (toggle : Bool) (s : LoopState) (ev : InputEvent) (hs : isSync ev)
    (h : s.primed = false ∨ laterThan ev s.last_click PRESS_TIMEOUT = false) :
    mainloop_step toggle s ev = ⟨s, [], none⟩ := by
  obtain ⟨h1, h2⟩ := hs
  have hne : ¬ (EV_SYN = EV_KEY) := by decide
  rcases h with h | h <;>
    simp [mainloop_step, h1, h2, h, hne]

/-! ## Runs of the loop -/

/-- A run over two lists of events is the run over the first followed by the run
over the second. -/
theorem mainloop_append (toggle : Bool) (xs ys : List InputEvent) : ∀ s : LoopState,
    mainloop toggle s (xs ++ ys) =
      ⟨(mainloop toggle (mainloop toggle s xs).state ys).state,
        (mainloop toggle s xs).written ++ (mainloop toggle (mainloop toggle s xs).state ys).written,
        (mainloop toggle s xs).dispatched ++
          (mainloop toggle (mainloop toggle s xs).state ys).dispatched⟩ := by
  induction xs with
  | nil => intro s; simp [mainloop]
  | cons x xs ih => intro s; simp [mainloop, ih, List.append_assoc]

/-- Sync reports read while the session is not primed, or not later than
`last_click` by more than the window, do nothing. -/
theorem mainloop_syncs_idle (toggle : Bool) (s : LoopState) : ∀ ys : List InputEvent,
    (∀ y ∈ ys, isSync y ∧ (s.primed = false ∨ notLater y s.last_click)) →
    mainloop toggle s ys = ⟨s, [], []⟩ := by
  intro ys
  induction ys with
  | nil => intro _; rfl
  | cons y ys ih =>
    intro h
    have hy := h y (List.mem_cons_self y ys)
    have hrest := ih (fun z hz => h z (List.mem_cons_of_mem y hz))
    simp [mainloop, step_sync_idle toggle s y hy.1 hy.2, hrest]

/-- An event stamped less than 0.2 s after another is not later for the comparator. -/
theorem strictlyWithin_notLater (e prev : InputEvent) (h : strictlyWithin e prev) :
    notLater e prev := by
  obtain ⟨h1, h2, hf, h3⟩ := h
  have hiff := laterThan_iff_exact e prev h1 h2 hf (ne_of_lt h3)
  unfold notLater
  cases hl : laterThan e prev PRESS_TIMEOUT
  · rfl
  · have := hiff.mp hl
    exact absurd h3 (not_lt.mpr (le_of_lt this))

theorem QuickClick_mono (W V : InputEvent → InputEvent → Prop) (hWV : ∀ e p, W e p → V e p)
    (c : Click) (h : QuickClick W c) : QuickClick V c := by
  obtain ⟨h1, h2, h3, h4, h5⟩ := h
  exact ⟨h1, h2, hWV _ _ h3, fun y hy => ⟨(h4 y hy).1, hWV _ _ (h4 y hy).2⟩,
    fun y hy => ⟨(h5 y hy).1, hWV _ _ (h5 y hy).2⟩⟩

theorem QuickBurst_mono (W V : InputEvent → InputEvent → Prop) (hWV : ∀ e p, W e p → V e p) :
    ∀ (cs : List Click) (prev : Option InputEvent), QuickBurst W prev cs → QuickBurst V prev cs := by
  intro cs
  induction cs with
  | nil => intro _ _; trivial
  | cons c cs ih =>
    intro prev h
    obtain ⟨h1, h2, h3⟩ := h
    exact ⟨fun r hr => hWV _ _ (h1 r hr), QuickClick_mono W V hWV c h2, ih _ h3⟩

/-- One quick click adds 1 to a click count below `INT_MAX` and leaves the session
primed. -/
theorem mainloop_click (toggle : Bool) (s : LoopState) (c : Click)
    (hc : QuickClick notLater c) (h0 : s.n_clicks = 0 ∨ notLater c.press s.last_click)
    (hlo : 0 ≤ s.n_clicks) (hhi : s.n_clicks < 2147483647) :
    (mainloop toggle s c.events).state =
      { s with n_clicks := s.n_clicks + 1, primed := true, last_click := c.release } ∧
    (mainloop toggle s c.events).dispatched = [] := by
  obtain ⟨hp, hr, hrp, hap, har⟩ := hc
  have hn : ¬ (s.n_clicks ≠ 0 ∧ laterThan c.press s.last_click PRESS_TIMEOUT = true) := by
    rintro ⟨h1, h2⟩
    rcases h0 with h0 | h0
    · exact h1 h0
    · unfold notLater at h0; rw [h0] at h2; exact Bool.noConfusion h2
  have e1 := step_press toggle s c.press hp
  rw [if_neg hn, wrap32_of_fit _ (by omega) (by omega)] at e1
  have e2 := mainloop_syncs_idle toggle
    { s with n_clicks := s.n_clicks + 1, last_click := c.press, primed := false } c.afterPress
    (fun y hy => ⟨(hap y hy).1, Or.inl rfl⟩)
  have e3 := step_release toggle
    { s with n_clicks := s.n_clicks + 1, last_click := c.press, primed := false } c.release hr
  rw [if_pos (show laterThan c.release c.press PRESS_TIMEOUT = false from hrp)] at e3
  have e4 := mainloop_syncs_idle toggle
    { s with n_clicks := s.n_clicks + 1, last_click := c.release, primed := true } c.afterRelease
    (fun y hy => ⟨(har y hy).1, Or.inr (har y hy).2⟩)
  dsimp only at e3
  have hev : c.events = c.press :: (c.afterPress ++ c.release :: c.afterRelease) := rfl
  rw [hev]
  simp only [mainloop, e1]
  rw [mainloop_append]
  simp only [mainloop, e2, e3, e4]
  simp

/-- A burst of quick clicks adds its length to the click count, as long as the
sum stays in the range of `int`, dispatches nothing and leaves the session
primed at the last release. -/
theorem mainloop_burst (toggle : Bool) : ∀ (cs : List Click) (s : LoopState)
    (prev : Option InputEvent), QuickBurst notLater prev cs →
    (s.n_clicks = 0 ∨ prev = some s.last_click) →
    0 ≤ s.n_clicks → s.n_clicks + (cs.length : Int) < 2147483648 →
    (mainloop toggle s (burstEvents cs)).state.n_clicks = s.n_clicks + cs.length ∧
    (mainloop toggle s (burstEvents cs)).state.eraser_on = s.eraser_on ∧
    (mainloop toggle s (burstEvents cs)).dispatched = [] ∧
    (∀ c ∈ cs.getLast?, (mainloop toggle s (burstEvents cs)).state.primed = true ∧
      (mainloop toggle s (burstEvents cs)).state.last_click = c.release) := by
  intro cs
  induction cs with
  | nil => intro s prev _ _ _ _; simp [burstEvents, mainloop]
  | cons c cs ih =>
    intro s prev hb h0 hlo hhi
    simp only [List.length_cons, Nat.cast_add, Nat.cast_one] at hhi
    have hlen : (0 : Int) ≤ (cs.length : Int) := Int.ofNat_nonneg _
    obtain ⟨h1, h2, h3⟩ := hb
    have hfirst : s.n_clicks = 0 ∨ notLater c.press s.last_click := by
      rcases h0 with h0 | h0
      · exact Or.inl h0
      · exact Or.inr (h1 _ (by rw [h0]; rfl))
    obtain ⟨ec, ed⟩ := mainloop_click toggle s c h2 hfirst hlo (by omega)
    have hrest := ih ⟨s.n_clicks + 1, true, c.release, s.eraser_on⟩ (some c.release) h3
      (Or.inr rfl) (by show 0 ≤ s.n_clicks + 1; omega)
      (by show s.n_clicks + 1 + (cs.length : Int) < 2147483648; omega)
    obtain ⟨r1, r2, r3, r4⟩ := hrest
    simp only [burstEvents, mainloop_append, ec, ed, List.nil_append]
    refine ⟨?_, r2, r3, ?_⟩
    · rw [r1]; simp only [List.length_cons]; push_cast; ring
    · intro c' hc'
      cases cs with
      | nil =>
        simp only [List.getLast?_singleton, Option.mem_def, Option.some.injEq] at hc'
        subst hc'
        simp [burstEvents, mainloop]
      | cons c2 cs2 =>
        rw [List.getLast?_cons_cons] at hc'
        exact r4 c' hc'

theorem QuickBurst_last (W : InputEvent → InputEvent → Prop) (c : Click) :
    ∀ (cs : List Click) (prev : Option InputEvent),
      QuickBurst W prev (cs ++ [c]) → QuickClick W c := by
  intro cs
  induction cs with
  | nil => intro prev h; exact h.2.1
  | cons c' cs ih => intro prev h; exact ih _ h.2.2

/-- An event stamped more than 0.2 s after another is later for the comparator,
when the subtraction of the seconds does not overflow. -/
theorem later_of_exact (e prev : InputEvent) (h1 : wellTimed e) (h2 : wellTimed prev)
    (hf : secondsFit e prev) (h3 : exactElapsed e prev > 1 / 5) :
    laterThan e prev PRESS_TIMEOUT = true :=
  (laterThan_iff_exact e prev h1 h2 hf (ne_of_gt h3)).mpr h3

/-! ## Claim C1: a burst of quick clicks -/

/-- Claim C1 as stated fails: a press and a release stamped exactly 0.2 s apart
(at most the window) leave the click count at 0 and the session not primed,
because the double difference `0.9 - 0.7` is greater than the double `0.2`. -/
theorem C1_counterexample :
    QuickBurst withinWindow none
      [⟨⟨100, 700000, EV_KEY, BTN_STYLUS, 1⟩, [], ⟨100, 900000, EV_KEY, BTN_STYLUS, 0⟩, []⟩] ∧
    (mainloop true initial (burstEvents
      [⟨⟨100, 700000, EV_KEY, BTN_STYLUS, 1⟩, [], ⟨100, 900000, EV_KEY, BTN_STYLUS, 0⟩, []⟩])).state.n_clicks
        = 0 ∧
    (mainloop true initial (burstEvents
      [⟨⟨100, 700000, EV_KEY, BTN_STYLUS, 1⟩, [], ⟨100, 900000, EV_KEY, BTN_STYLUS, 0⟩, []⟩])).state.primed
        = false := by
  refine ⟨by decide!, by decide!, by decide!⟩

/-- Claim C1 (amended): from loop variables with `n_clicks = 0` and
`primed = false`, after a burst of `N = cs.length + 1` press/release pairs, `N`
below `2^31` (the count is an `int`), in which every button event is stamped less
than 0.2 s after the button event before it, and every sync report read in
between less than 0.2 s after the button event before it (microseconds
normalised, no overflow in the subtraction of the seconds), the click count is
`N`, `primed` is true and nothing has been dispatched; a sync report stamped more
than 0.2 s after the last release then dispatches once, with count `N`, and
leaves `n_clicks = 0` and `primed = false`, so that a further sync report
dispatches nothing. -/
theorem C1_quick_clicks (toggle : Bool) (s : LoopState)
    (hidle : s.n_clicks = 0 ∧ s.primed = false)
    (cs : List Click) (c : Click) (hN : (cs.length : Int) + 1 < 2147483648)
    (hb : QuickBurst strictlyWithin none (cs ++ [c]))
    (y z : InputEvent) (hy : isSync y) (hyw : wellTimed y) (hyf : secondsFit y c.release)
    (hlate : exactElapsed y c.release > 1 / 5) (hz : isSync z) :
    (mainloop toggle s (burstEvents (cs ++ [c]))).state.n_clicks = cs.length + 1 ∧
    (mainloop toggle s (burstEvents (cs ++ [c]))).state.primed = true ∧
    (mainloop toggle s (burstEvents (cs ++ [c]))).dispatched = [] ∧
    (mainloop_step toggle (mainloop toggle s (burstEvents (cs ++ [c]))).state y).dispatched
      = some ((cs.length : Int) + 1) ∧
    (mainloop_step toggle (mainloop toggle s (burstEvents (cs ++ [c]))).state y).state.n_clicks
      = 0 ∧
    (mainloop_step toggle (mainloop toggle s (burstEvents (cs ++ [c]))).state y).state.primed
      = false ∧
    (mainloop_step toggle
      (mainloop_step toggle (mainloop toggle s (burstEvents (cs ++ [c]))).state y).state z).dispatched
      = none := by
  have hq := QuickBurst_mono strictlyWithin notLater strictlyWithin_notLater _ _ hb
  obtain ⟨r1, -, r3, r4⟩ := mainloop_burst toggle (cs ++ [c]) s none hq (Or.inl hidle.1)
    (by rw [hidle.1]) (by rw [hidle.1]; simp; omega)
  obtain ⟨r5, r6⟩ := r4 c (by simp)
  have hcw : wellTimed c.release := (QuickBurst_last strictlyWithin c cs none hb).2.2.1.1
  generalize (mainloop toggle s (burstEvents (cs ++ [c]))).state = t at r1 r5 r6 ⊢
  have hl : laterThan y t.last_click PRESS_TIMEOUT = true := by
    rw [r6]; exact later_of_exact y c.release hyw hcw hyf hlate
  have hn : t.n_clicks = (cs.length : Int) + 1 := by
    rw [r1, hidle.1]; simp
  have hd := step_sync_dispatch toggle t y r5 hy hl
  have hstep : (mainloop_step toggle t y).dispatched = some t.n_clicks ∧
      (mainloop_step toggle t y).state.n_clicks = 0 ∧
      (mainloop_step toggle t y).state.primed = false := by
    rw [hd]; split_ifs <;> exact ⟨rfl, rfl, rfl⟩
  obtain ⟨d1, d2, d3⟩ := hstep
  refine ⟨hn, r5, r3, by rw [d1, hn], d2, d3, ?_⟩
  rw [step_sync_idle toggle _ z hz (Or.inl d3)]

/-- Witness for claim C1: one quick click, a press at 100.0 s and a release at
100.05 s with a sync report after each, then a sync report at 100.3 s. -/
theorem C1_quick_clicks_witness :
    QuickBurst strictlyWithin none ([] ++
      [⟨⟨100, 0, EV_KEY, BTN_STYLUS, 1⟩, [⟨100, 10000, EV_SYN, SYN_REPORT, 0⟩],
        ⟨100, 50000, EV_KEY, BTN_STYLUS, 0⟩, [⟨100, 60000, EV_SYN, SYN_REPORT, 0⟩]⟩]) ∧
    (mainloop_step false (mainloop false initial (burstEvents ([] ++
      [⟨⟨100, 0, EV_KEY, BTN_STYLUS, 1⟩, [⟨100, 10000, EV_SYN, SYN_REPORT, 0⟩],
        ⟨100, 50000, EV_KEY, BTN_STYLUS, 0⟩, [⟨100, 60000, EV_SYN, SYN_REPORT, 0⟩]⟩]))).state
      ⟨100, 300000, EV_SYN, SYN_REPORT, 0⟩).dispatched = some 1 := by
  have hb : QuickBurst strictlyWithin none ([] ++
      [⟨⟨100, 0, EV_KEY, BTN_STYLUS, 1⟩, [⟨100, 10000, EV_SYN, SYN_REPORT, 0⟩],
        ⟨100, 50000, EV_KEY, BTN_STYLUS, 0⟩, [⟨100, 60000, EV_SYN, SYN_REPORT, 0⟩]⟩]) := by
    decide!
  exact ⟨hb, (C1_quick_clicks false initial ⟨rfl, rfl⟩ [] _ (by decide) hb
    ⟨100, 300000, EV_SYN, SYN_REPORT, 0⟩ ⟨100, 400000, EV_SYN, SYN_REPORT, 0⟩ ⟨rfl, rfl⟩
    (by decide) (by decide) (by norm_num [exactElapsed]) ⟨rfl, rfl⟩).2.2.2.1⟩

/-! ## Claims C2, C3 and C4: a gesture dispatch -/

/-- Claim C2: at a dispatch (sync report while primed and later than `last_click`
by more than the window), in either toggle mode, a click count of 2 writes
exactly the eight events of the Ctrl+Z chord and a click count of 3 or more
exactly those of the Ctrl+Y chord, all to the keyboard device and none to the
pen device, and `eraser_on` is unchanged. -/
theorem C2_dispatch_undo_redo (toggle : Bool) (s : LoopState) (ev : InputEvent)
    (hp : s.primed = true) (hs : isSync ev)
    (hl : laterThan ev s.last_click PRESS_TIMEOUT = true) :
    (s.n_clicks = 2 → (mainloop_step toggle s ev).written =
      [⟨Fd.keyboard, EV_KEY, KEY_LEFTCTRL, 1⟩, ⟨Fd.keyboard, EV_SYN, SYN_REPORT, 0⟩,
       ⟨Fd.keyboard, EV_KEY, KEY_Z, 1⟩, ⟨Fd.keyboard, EV_SYN, SYN_REPORT, 0⟩,
       ⟨Fd.keyboard, EV_KEY, KEY_Z, 0⟩, ⟨Fd.keyboard, EV_SYN, SYN_REPORT, 0⟩,
       ⟨Fd.keyboard, EV_KEY, KEY_LEFTCTRL, 0⟩, ⟨Fd.keyboard, EV_SYN, SYN_REPORT, 0⟩]) ∧
    (3 ≤ s.n_clicks → (mainloop_step toggle s ev).written =
      [⟨Fd.keyboard, EV_KEY, KEY_LEFTCTRL, 1⟩, ⟨Fd.keyboard, EV_SYN, SYN_REPORT, 0⟩,
       ⟨Fd.keyboard, EV_KEY, KEY_Y, 1⟩, ⟨Fd.keyboard, EV_SYN, SYN_REPORT, 0⟩,
       ⟨Fd.keyboard, EV_KEY, KEY_Y, 0⟩, ⟨Fd.keyboard, EV_SYN, SYN_REPORT, 0⟩,
       ⟨Fd.keyboard, EV_KEY, KEY_LEFTCTRL, 0⟩, ⟨Fd.keyboard, EV_SYN, SYN_REPORT, 0⟩]) ∧
    (2 ≤ s.n_clicks →
      (mainloop_step toggle s ev).written.length = 8 ∧
      (∀ w ∈ (mainloop_step toggle s ev).written, w.fd = Fd.keyboard) ∧
      (mainloop_step toggle s ev).state.eraser_on = s.eraser_on ∧
      (mainloop_step toggle s ev).dispatched = some s.n_clicks) := by
  rw [step_sync_dispatch toggle s ev hp hs hl]
  refine ⟨?_, ?_, ?_⟩
  · intro h
    simp [h, chord]
  · intro h
    have h1 : ¬ s.n_clicks = 1 := by omega
    have h2 : s.n_clicks > 1 := by omega
    have h3 : s.n_clicks > 2 := by omega
    simp [h1, h2, h3, chord]
  · intro h
    have h1 : ¬ s.n_clicks = 1 := by omega
    have h2 : s.n_clicks > 1 := by omega
    rw [if_neg (fun hh => h1 hh.1), if_pos h2]
    refine ⟨by simp [chord], ?_, rfl, rfl⟩
    intro w hw
    simp only [chord, List.mem_cons, List.mem_singleton, List.not_mem_nil, or_false] at hw
    rcases hw with rfl | rfl | rfl | rfl | rfl | rfl | rfl | rfl <;> rfl

/-- Witness for claim C2: a primed session with two clicks and a sync report
0.3 s after the last click. -/
theorem C2_dispatch_undo_redo_witness :
    laterThan ⟨10, 300000, EV_SYN, SYN_REPORT, 0⟩ (⟨10, 0, EV_KEY, BTN_STYLUS, 0⟩ : InputEvent)
        PRESS_TIMEOUT = true ∧
    (mainloop_step false ⟨2, true, ⟨10, 0, EV_KEY, BTN_STYLUS, 0⟩, false⟩
        ⟨10, 300000, EV_SYN, SYN_REPORT, 0⟩).written =
      [⟨Fd.keyboard, EV_KEY, KEY_LEFTCTRL, 1⟩, ⟨Fd.keyboard, EV_SYN, SYN_REPORT, 0⟩,
       ⟨Fd.keyboard, EV_KEY, KEY_Z, 1⟩, ⟨Fd.keyboard, EV_SYN, SYN_REPORT, 0⟩,
       ⟨Fd.keyboard, EV_KEY, KEY_Z, 0⟩, ⟨Fd.keyboard, EV_SYN, SYN_REPORT, 0⟩,
       ⟨Fd.keyboard, EV_KEY, KEY_LEFTCTRL, 0⟩, ⟨Fd.keyboard, EV_SYN, SYN_REPORT, 0⟩] :=
  ⟨by decide!,
    (C2_dispatch_undo_redo false ⟨2, true, ⟨10, 0, EV_KEY, BTN_STYLUS, 0⟩, false⟩
      ⟨10, 300000, EV_SYN, SYN_REPORT, 0⟩ rfl ⟨rfl, rfl⟩ (by decide!)).1 rfl⟩

/-- Claim C3: at a dispatch with a click count of 1 in toggle mode, `eraser_on`
is flipped; if it was true, exactly three events are written to the pen device,
eraser tool 0, pen tool 0, pen tool 1, in this order; if it was false, exactly
one, eraser tool 1; nothing is written to the keyboard device. -/
theorem C3_dispatch_eraser (s : LoopState) (ev : InputEvent)
    (hp : s.primed = true) (hs : isSync ev)
    (hl : laterThan ev s.last_click PRESS_TIMEOUT = true) (h1 : s.n_clicks = 1) :
    (mainloop_step true s ev).state.eraser_on = (!s.eraser_on) ∧
    (s.eraser_on = true → (mainloop_step true s ev).written =
      [⟨Fd.pen, EV_KEY, BTN_TOOL_RUBBER, 0⟩, ⟨Fd.pen, EV_KEY, BTN_TOOL_PEN, 0⟩,
       ⟨Fd.pen, EV_KEY, BTN_TOOL_PEN, 1⟩]) ∧
    (s.eraser_on = false → (mainloop_step true s ev).written =
      [⟨Fd.pen, EV_KEY, BTN_TOOL_RUBBER, 1⟩]) ∧
    (∀ w ∈ (mainloop_step true s ev).written, w.fd ≠ Fd.keyboard) := by
  rw [step_sync_dispatch true s ev hp hs hl, if_pos ⟨h1, rfl⟩]
  refine ⟨rfl, ?_, ?_, ?_⟩
  · intro h
    simp [h, boolToInt]
  · intro h
    simp [h, boolToInt]
  · intro w hw
    cases he : s.eraser_on <;> simp [he] at hw
    · subst hw; simp
    · rcases hw with rfl | rfl | rfl <;> simp

/-- Witness for claim C3: a primed session with one click, the eraser on, and a
sync report 0.3 s after the last click. -/
theorem C3_dispatch_eraser_witness :
    laterThan ⟨10, 300000, EV_SYN, SYN_REPORT, 0⟩ (⟨10, 0, EV_KEY, BTN_STYLUS, 0⟩ : InputEvent)
        PRESS_TIMEOUT = true ∧
    (mainloop_step true ⟨1, true, ⟨10, 0, EV_KEY, BTN_STYLUS, 0⟩, true⟩
        ⟨10, 300000, EV_SYN, SYN_REPORT, 0⟩).written =
      [⟨Fd.pen, EV_KEY, BTN_TOOL_RUBBER, 0⟩, ⟨Fd.pen, EV_KEY, BTN_TOOL_PEN, 0⟩,
       ⟨Fd.pen, EV_KEY, BTN_TOOL_PEN, 1⟩] :=
  ⟨by decide!,
    (C3_dispatch_eraser ⟨1, true, ⟨10, 0, EV_KEY, BTN_STYLUS, 0⟩, true⟩
      ⟨10, 300000, EV_SYN, SYN_REPORT, 0⟩ rfl ⟨rfl, rfl⟩ (by decide!) rfl).2.1 rfl⟩

/-- Claim C4: whenever the dispatch rule fires (sync report, `primed`, later than
`last_click` by more than the window), the loop variables afterwards have
`n_clicks = 0` and `primed = false`, whichever branch was taken. -/
theorem C4_dispatch_resets (toggle : Bool) (s : LoopState) (ev : InputEvent)
    (hp : s.primed = true) (hs : isSync ev)
    (hl : laterThan ev s.last_click PRESS_TIMEOUT = true) :
    (mainloop_step toggle s ev).state.n_clicks = 0 ∧
    (mainloop_step toggle s ev).state.primed = false := by
  rw [step_sync_dispatch toggle s ev hp hs hl]
  split_ifs <;> exact ⟨rfl, rfl⟩

/-- Witness for claim C4: a primed session with one click and a sync report
0.3 s after the last click. -/
theorem C4_dispatch_resets_witness :
    laterThan ⟨10, 300000, EV_SYN, SYN_REPORT, 0⟩ (⟨10, 0, EV_KEY, BTN_STYLUS, 0⟩ : InputEvent)
        PRESS_TIMEOUT = true ∧
    (mainloop_step true ⟨1, true, ⟨10, 0, EV_KEY, BTN_STYLUS, 0⟩, false⟩
        ⟨10, 300000, EV_SYN, SYN_REPORT, 0⟩).state.n_clicks = 0 ∧
    (mainloop_step true ⟨1, true, ⟨10, 0, EV_KEY, BTN_STYLUS, 0⟩, false⟩
        ⟨10, 300000, EV_SYN, SYN_REPORT, 0⟩).state.primed = false :=
  ⟨by decide!,
    C4_dispatch_resets true ⟨1, true, ⟨10, 0, EV_KEY, BTN_STYLUS, 0⟩, false⟩
      ⟨10, 300000, EV_SYN, SYN_REPORT, 0⟩ rfl ⟨rfl, rfl⟩ (by decide!)⟩

/-! ## Claim C5: a primed session has a click -/

/-- An event that is neither a press nor a release leaves the loop variables as
they are, unless it is a dispatch, which needs a primed session. -/
theorem step_other (toggle : Bool) (s : LoopState) (e : InputEvent)
    (h1 : ¬ isPress e) (h2 : ¬ isRelease e) :
    (mainloop_step toggle s e).state = s ∨
      ((mainloop_step toggle s e).state.n_clicks = 0 ∧
        (mainloop_step toggle s e).state.primed = false ∧ s.primed = true) := by
  by_cases hb : e.type = EV_KEY ∧ e.code = BTN_STYLUS
  · have hv1 : ¬ e.value = 1 := fun h => h1 ⟨hb.1, hb.2, h⟩
    have hv0 : ¬ e.value = 0 := fun h => h2 ⟨hb.1, hb.2, h⟩
    left
    simp only [mainloop_step, if_pos hb, if_neg hv1, if_neg hv0]
  · by_cases hd : s.primed = true ∧ e.type = EV_SYN ∧ e.code = SYN_REPORT ∧
        laterThan e s.last_click PRESS_TIMEOUT = true
    · right
      simp only [mainloop_step, if_neg hb, if_pos hd]
      split_ifs <;> exact ⟨rfl, rfl, hd.1⟩
    · left
      simp only [mainloop_step, if_neg hb, if_neg hd]
      split_ifs <;> rfl

/-- The invariant behind claim C5, for a run with too few presses for the `int`
count to overflow: the click count is never negative, a primed session has a click, and
between a press and its release the count is positive and the session not
primed. -/
theorem mainloop_primed_invariant (toggle : Bool) : ∀ (es : List InputEvent) (s : LoopState)
    (held : Bool), releasesFollowPresses held es →
    0 ≤ s.n_clicks → s.n_clicks + (pressCount es : Int) < 2147483648 →
    (s.primed = true → 1 ≤ s.n_clicks) →
    (held = true → 1 ≤ s.n_clicks ∧ s.primed = false) →
    0 ≤ (mainloop toggle s es).state.n_clicks ∧
    ((mainloop toggle s es).state.primed = true → 1 ≤ (mainloop toggle s es).state.n_clicks) := by
  intro es
  induction es with
  | nil => intro s held _ h0 _ h1 _; exact ⟨h0, h1⟩
  | cons e es ih =>
    intro s held hr h0 hb h1 h2
    have hlen : (0 : Int) ≤ (pressCount es : Int) := Int.ofNat_nonneg _
    have hpc : pressCount (e :: es) =
        (if e.type = EV_KEY ∧ e.code = BTN_STYLUS ∧ e.value = 1 then 1 else 0) +
          pressCount es := rfl
    rw [hpc] at hb
    simp only [mainloop]
    by_cases hp : isPress e
    · rw [if_pos (show e.type = EV_KEY ∧ e.code = BTN_STYLUS ∧ e.value = 1 from hp)] at hb
      simp only [Nat.cast_add, Nat.cast_one] at hb
      have hr' : releasesFollowPresses true es := by
        unfold releasesFollowPresses at hr
        rw [if_pos (show e.type = EV_KEY ∧ e.code = BTN_STYLUS ∧ e.value = 1 from hp)] at hr
        exact hr
      have hs := step_press toggle s e hp
      have hn : 1 ≤ (mainloop_step toggle s e).state.n_clicks ∧
          (mainloop_step toggle s e).state.n_clicks ≤ s.n_clicks + 1 := by
        rw [hs]; dsimp only; unfold wrap32; split_ifs <;> omega
      have hpr : (mainloop_step toggle s e).state.primed = false := by rw [hs]
      exact ih _ true hr' (by omega) (by omega) (fun _ => hn.1) (fun _ => ⟨hn.1, hpr⟩)
    · rw [if_neg (show ¬ (e.type = EV_KEY ∧ e.code = BTN_STYLUS ∧ e.value = 1) from hp),
        Nat.zero_add] at hb
      by_cases hrel : isRelease e
      · have hr' : held = true ∧ releasesFollowPresses false es := by
          unfold releasesFollowPresses at hr
          rw [if_neg (show ¬ (e.type = EV_KEY ∧ e.code = BTN_STYLUS ∧ e.value = 1) from hp),
            if_pos (show e.type = EV_KEY ∧ e.code = BTN_STYLUS ∧ e.value = 0 from hrel)] at hr
          exact hr
        obtain ⟨hh, hrest'⟩ := hr'
        obtain ⟨hn, -⟩ := h2 hh
        have hs := step_release toggle s e hrel
        refine ih _ false hrest' ?_ ?_ ?_ ?_
        · rw [hs]; dsimp only; split_ifs <;> dsimp only <;> omega
        · rw [hs]; dsimp only; split_ifs <;> dsimp only <;> omega
        · rw [hs]; dsimp only; split_ifs
          · intro _; exact hn
          · intro h; exact absurd h (by simp)
        · intro h; exact absurd h (by simp)
      · have hr' : releasesFollowPresses held es := by
          unfold releasesFollowPresses at hr
          rw [if_neg (show ¬ (e.type = EV_KEY ∧ e.code = BTN_STYLUS ∧ e.value = 1) from hp),
            if_neg (show ¬ (e.type = EV_KEY ∧ e.code = BTN_STYLUS ∧ e.value = 0) from hrel)] at hr
          exact hr
        rcases step_other toggle s e hp hrel with hs | ⟨hs1, hs2, hs3⟩
        · rw [hs]; exact ih s held hr' h0 (by omega) h1 h2
        · refine ih _ held hr' (by omega) (by omega) ?_ ?_
          · intro h; rw [hs2] at h; exact absurd h (by simp)
          · intro h
            have := (h2 h).2
            rw [hs3] at this
            exact absurd this (by simp)

/-- Claim C5 as stated fails: a release read as the very first event, stamped
0.1 s, is not later than the zero `last_click` by more than the window, so it
sets `primed` while the click count is still 0. -/
theorem C5_counterexample :
    (mainloop false initial [⟨0, 100000, EV_KEY, BTN_STYLUS, 0⟩]).state.primed = true ∧
    (mainloop false initial [⟨0, 100000, EV_KEY, BTN_STYLUS, 0⟩]).state.n_clicks = 0 := by
  constructor <;> decide!

/-- Claim C5 (amended): in every state reached from the initial loop variables
by a finite sequence of events with fewer than `2^31` presses of the stylus
button (so that the `int` count cannot overflow) in which every release of the
button comes after a press with no other release in between, `primed = true`
implies `n_clicks ≥ 1`. -/
theorem C5_primed_has_click (toggle : Bool) (es : List InputEvent)
    (hlen : (pressCount es : Int) < 2147483648)
    (h : releasesFollowPresses false es) :
    (mainloop toggle initial es).state.primed = true →
      1 ≤ (mainloop toggle initial es).state.n_clicks :=
  (mainloop_primed_invariant toggle es initial false h (by decide)
    (by show (0 : Int) + (pressCount es : Int) < 2147483648; omega) (by decide)
    (by decide)).2

/-- Witness for claim C5: a press at 100.0 s and its release at 100.05 s. -/
theorem C5_primed_has_click_witness :
    releasesFollowPresses false
      [⟨100, 0, EV_KEY, BTN_STYLUS, 1⟩, ⟨100, 50000, EV_KEY, BTN_STYLUS, 0⟩] ∧
    (mainloop false initial
      [⟨100, 0, EV_KEY, BTN_STYLUS, 1⟩, ⟨100, 50000, EV_KEY, BTN_STYLUS, 0⟩]).state.primed = true ∧
    1 ≤ (mainloop false initial
      [⟨100, 0, EV_KEY, BTN_STYLUS, 1⟩, ⟨100, 50000, EV_KEY, BTN_STYLUS, 0⟩]).state.n_clicks := by
  have hr : releasesFollowPresses false
      [⟨100, 0, EV_KEY, BTN_STYLUS, 1⟩, ⟨100, 50000, EV_KEY, BTN_STYLUS, 0⟩] := by
    simp [releasesFollowPresses]
  have hp : (mainloop false initial
      [⟨100, 0, EV_KEY, BTN_STYLUS, 1⟩, ⟨100, 50000, EV_KEY, BTN_STYLUS, 0⟩]).state.primed
        = true := by decide!
  exact ⟨hr, hp, C5_primed_has_click false _ (by decide) hr hp⟩

/-! ## Claim C6: the scenario of the specification -/

theorem wellTimed_eventAt (t : Int) (type code : Nat) (value : Int) :
    wellTimed (eventAt t type code value) :=
  ⟨Int.emod_nonneg t (by decide), Int.emod_lt_of_pos t (by decide)⟩

theorem exactElapsed_eventAt (t1 t2 : Int) (ty1 c1 : Nat) (v1 : Int) (ty2 c2 : Nat) (v2 : Int) :
    exactElapsed (eventAt t1 ty1 c1 v1) (eventAt t2 ty2 c2 v2) =
      ((t1 - t2 : Int) : ℚ) / 1000000 := by
  have h1 : ((1000000 * (t1 / 1000000) + t1 % 1000000 : Int) : ℚ) = (t1 : ℚ) := by
    rw [Int.ediv_add_emod]
  have h2 : ((1000000 * (t2 / 1000000) + t2 % 1000000 : Int) : ℚ) = (t2 : ℚ) := by
    rw [Int.ediv_add_emod]
  push_cast at h1 h2
  simp only [exactElapsed, eventAt]
  push_cast
  rw [← h1, ← h2]
  ring

/-- Two events stamped less than 0.2 s apart, the later first, are not later
for the comparator. -/
theorem notLater_eventAt (t1 t2 : Int) (ty1 c1 : Nat) (v1 : Int) (ty2 c2 : Nat) (v2 : Int)
    (h0 : 0 ≤ t1 - t2) (h : t1 - t2 < 200000) :
    laterThan (eventAt t1 ty1 c1 v1) (eventAt t2 ty2 c2 v2) PRESS_TIMEOUT = false := by
  apply strictlyWithin_notLater
  have hf : secondsFit (eventAt t1 ty1 c1 v1) (eventAt t2 ty2 c2 v2) := by
    unfold secondsFit eventAt
    dsimp only
    omega
  refine ⟨wellTimed_eventAt _ _ _ _, wellTimed_eventAt _ _ _ _, hf, ?_⟩
  rw [exactElapsed_eventAt, div_lt_iff₀ (by norm_num)]
  have : ((t1 - t2 : Int) : ℚ) < 200000 := by exact_mod_cast h
  linarith

/-- Claim C6 as stated fails: with `t0` at 1000 s, the run over the six events
of the scenario dispatches nothing and writes nothing to the keyboard; the last
sync report comes only 0.18 s after the second release. -/
theorem C6_counterexample :
    (mainloop false initial (scenario 1000000000)).dispatched = [] ∧
    (mainloop false initial (scenario 1000000000)).written =
      [⟨Fd.pen, EV_KEY, BTN_TOOL_RUBBER, 1⟩, ⟨Fd.pen, EV_KEY, BTN_TOOL_RUBBER, 0⟩,
       ⟨Fd.pen, EV_KEY, BTN_TOOL_RUBBER, 1⟩, ⟨Fd.pen, EV_KEY, BTN_TOOL_RUBBER, 0⟩] ∧
    (mainloop false initial (scenario 1000000000)).state.n_clicks = 2 ∧
    (mainloop false initial (scenario 1000000000)).state.primed = true := by
  refine ⟨by decide!, by decide!, by decide!, by decide!⟩

/-- Claim C6 (amended): for every `t0`, the run over the six events of the
scenario with toggle mode off dispatches nothing, at the first sync report or at
the last, which comes 0.18 s after the second release: it ends primed with a
click count of 2, having written only the four pass-through eraser events. A
sync report stamped more than 0.2 s after the second release (later than
`t0 + 0.32`, the subtraction of the seconds not overflowing a `long`) then
dispatches with a click count of 2, writes the Ctrl+Z chord and leaves
`n_clicks = 0` and `primed = false`. -/
theorem C6_scenario (t0 : Int) (y : InputEvent) (hy : isSync y) (hyw : wellTimed y)
    (hyf : secondsFit y (eventAt (t0 + 120000) EV_KEY BTN_STYLUS 0))
    (hlate : exactElapsed y (eventAt (t0 + 120000) EV_KEY BTN_STYLUS 0) > 1 / 5) :
    mainloop false initial (scenario t0) =
      ⟨⟨2, true, eventAt (t0 + 120000) EV_KEY BTN_STYLUS 0, false⟩,
        [⟨Fd.pen, EV_KEY, BTN_TOOL_RUBBER, 1⟩, ⟨Fd.pen, EV_KEY, BTN_TOOL_RUBBER, 0⟩,
         ⟨Fd.pen, EV_KEY, BTN_TOOL_RUBBER, 1⟩, ⟨Fd.pen, EV_KEY, BTN_TOOL_RUBBER, 0⟩], []⟩ ∧
    mainloop_step false (mainloop false initial (scenario t0)).state y =
      ⟨⟨0, false, eventAt (t0 + 120000) EV_KEY BTN_STYLUS 0, false⟩,
        [⟨Fd.keyboard, EV_KEY, KEY_LEFTCTRL, 1⟩, ⟨Fd.keyboard, EV_SYN, SYN_REPORT, 0⟩,
         ⟨Fd.keyboard, EV_KEY, KEY_Z, 1⟩, ⟨Fd.keyboard, EV_SYN, SYN_REPORT, 0⟩,
         ⟨Fd.keyboard, EV_KEY, KEY_Z, 0⟩, ⟨Fd.keyboard, EV_SYN, SYN_REPORT, 0⟩,
         ⟨Fd.keyboard, EV_KEY, KEY_LEFTCTRL, 0⟩, ⟨Fd.keyboard, EV_SYN, SYN_REPORT, 0⟩],
        some 2⟩ := by
  have n21 := notLater_eventAt (t0 + 50000) t0 EV_KEY BTN_STYLUS 0 EV_KEY BTN_STYLUS 1
    (by omega) (by omega)
  have n32 := notLater_eventAt (t0 + 50000) (t0 + 50000) EV_SYN SYN_REPORT 0 EV_KEY BTN_STYLUS 0
    (by omega) (by omega)
  have n42 := notLater_eventAt (t0 + 100000) (t0 + 50000) EV_KEY BTN_STYLUS 1 EV_KEY BTN_STYLUS 0
    (by omega) (by omega)
  have n54 := notLater_eventAt (t0 + 120000) (t0 + 100000) EV_KEY BTN_STYLUS 0 EV_KEY BTN_STYLUS 1
    (by omega) (by omega)
  have n65 := notLater_eventAt (t0 + 300000) (t0 + 120000) EV_SYN SYN_REPORT 0 EV_KEY BTN_STYLUS 0
    (by omega) (by omega)
  have h1 : mainloop_step false initial (eventAt t0 EV_KEY BTN_STYLUS 1) =
      ⟨⟨1, false, eventAt t0 EV_KEY BTN_STYLUS 1, false⟩,
        [⟨Fd.pen, EV_KEY, BTN_TOOL_RUBBER, 1⟩], none⟩ := by
    rw [step_press _ _ _ ⟨rfl, rfl, rfl⟩]
    simp [initial, wrap32]
  have h2 : mainloop_step false ⟨1, false, eventAt t0 EV_KEY BTN_STYLUS 1, false⟩
      (eventAt (t0 + 50000) EV_KEY BTN_STYLUS 0) =
      ⟨⟨1, true, eventAt (t0 + 50000) EV_KEY BTN_STYLUS 0, false⟩,
        [⟨Fd.pen, EV_KEY, BTN_TOOL_RUBBER, 0⟩], none⟩ := by
    rw [step_release _ _ _ ⟨rfl, rfl, rfl⟩, if_pos n21]
    simp
  have h3 := step_sync_idle false ⟨1, true, eventAt (t0 + 50000) EV_KEY BTN_STYLUS 0, false⟩
    (eventAt (t0 + 50000) EV_SYN SYN_REPORT 0) ⟨rfl, rfl⟩ (Or.inr n32)
  have h4 : mainloop_step false ⟨1, true, eventAt (t0 + 50000) EV_KEY BTN_STYLUS 0, false⟩
      (eventAt (t0 + 100000) EV_KEY BTN_STYLUS 1) =
      ⟨⟨2, false, eventAt (t0 + 100000) EV_KEY BTN_STYLUS 1, false⟩,
        [⟨Fd.pen, EV_KEY, BTN_TOOL_RUBBER, 1⟩], none⟩ := by
    rw [step_press _ _ _ ⟨rfl, rfl, rfl⟩]
    simp [n42, wrap32]
  have h5 : mainloop_step false ⟨2, false, eventAt (t0 + 100000) EV_KEY BTN_STYLUS 1, false⟩
      (eventAt (t0 + 120000) EV_KEY BTN_STYLUS 0) =
      ⟨⟨2, true, eventAt (t0 + 120000) EV_KEY BTN_STYLUS 0, false⟩,
        [⟨Fd.pen, EV_KEY, BTN_TOOL_RUBBER, 0⟩], none⟩ := by
    rw [step_release _ _ _ ⟨rfl, rfl, rfl⟩, if_pos n54]
    simp
  have h6 := step_sync_idle false ⟨2, true, eventAt (t0 + 120000) EV_KEY BTN_STYLUS 0, false⟩
    (eventAt (t0 + 300000) EV_SYN SYN_REPORT 0) ⟨rfl, rfl⟩ (Or.inr n65)
  have hrun : mainloop false initial (scenario t0) =
      ⟨⟨2, true, eventAt (t0 + 120000) EV_KEY BTN_STYLUS 0, false⟩,
        [⟨Fd.pen, EV_KEY, BTN_TOOL_RUBBER, 1⟩, ⟨Fd.pen, EV_KEY, BTN_TOOL_RUBBER, 0⟩,
         ⟨Fd.pen, EV_KEY, BTN_TOOL_RUBBER, 1⟩, ⟨Fd.pen, EV_KEY, BTN_TOOL_RUBBER, 0⟩], []⟩ := by
    simp only [scenario, mainloop, h1, h2, h3, h4, h5, h6]
    simp
  refine ⟨hrun, ?_⟩
  rw [hrun]
  have hl := later_of_exact y _ hyw (wellTimed_eventAt _ _ _ _) hyf hlate
  rw [step_sync_dispatch false ⟨2, true, eventAt (t0 + 120000) EV_KEY BTN_STYLUS 0, false⟩ y
    rfl hy hl]
  simp [chord]

/-- Witness for claim C6: the scenario at `t0` = 1000 s followed by a sync report
at `t0 + 0.33`. -/
theorem C6_scenario_witness :
    exactElapsed (eventAt (1000000000 + 330000) EV_SYN SYN_REPORT 0)
      (eventAt (1000000000 + 120000) EV_KEY BTN_STYLUS 0) > 1 / 5 ∧
    (mainloop false initial (scenario 1000000000)).dispatched = [] ∧
    (mainloop_step false (mainloop false initial (scenario 1000000000)).state
      (eventAt (1000000000 + 330000) EV_SYN SYN_REPORT 0)).dispatched = some 2 := by
  have hl : exactElapsed (eventAt (1000000000 + 330000) EV_SYN SYN_REPORT 0)
      (eventAt (1000000000 + 120000) EV_KEY BTN_STYLUS 0) > 1 / 5 := by
    rw [exactElapsed_eventAt]; norm_num
  have h := C6_scenario 1000000000 (eventAt (1000000000 + 330000) EV_SYN SYN_REPORT 0)
    ⟨rfl, rfl⟩ (wellTimed_eventAt _ _ _ _) (by decide) hl
  exact ⟨hl, by rw [h.1], by rw [h.2]⟩

/-! ## Claims C7 and C8: button events -/

/-- Claim C7 as stated fails: in a state whose click count is `INT_MAX` a press
within the window of `last_click` does not give the old count plus 1: the
increment of the `int` wraps and the new count is `-2147483648`. -/
theorem C7_counterexample :
    isPress ⟨10, 100000, EV_KEY, BTN_STYLUS, 1⟩ ∧
    laterThan ⟨10, 100000, EV_KEY, BTN_STYLUS, 1⟩ ⟨10, 0, EV_KEY, BTN_STYLUS, 1⟩
      PRESS_TIMEOUT = false ∧
    (mainloop_step false ⟨2147483647, false, ⟨10, 0, EV_KEY, BTN_STYLUS, 1⟩, false⟩
      ⟨10, 100000, EV_KEY, BTN_STYLUS, 1⟩).state.n_clicks = -2147483648 ∧
    (mainloop_step false ⟨2147483647, false, ⟨10, 0, EV_KEY, BTN_STYLUS, 1⟩, false⟩
      ⟨10, 100000, EV_KEY, BTN_STYLUS, 1⟩).state.n_clicks ≠ 2147483647 + 1 := by
  refine ⟨⟨rfl, rfl, rfl⟩, by decide!, by decide!, by decide!⟩

/-- Claim C7 (amended): on a button press, from loop variables with a
non-negative click count: if the count is at least 1 and the press is later than
`last_click` by more than the window, the new count is 1; otherwise it is the old
count plus 1 when the old count is below `INT_MAX = 2147483647`, and
`-2147483648` when the old count is `INT_MAX`. In all cases `last_click` becomes
the event, `primed` becomes false, `eraser_on` is unchanged and no gesture is
dispatched (only the pass-through echo of the non-toggle mode is written); a
press with a count of 0 always gives 1. -/
theorem C7_press (toggle : Bool) (s : LoopState) (ev : InputEvent)
    (hev : isPress ev) (h0 : 0 ≤ s.n_clicks) :
    (1 ≤ s.n_clicks ∧ laterThan ev s.last_click PRESS_TIMEOUT = true →
      (mainloop_step toggle s ev).state.n_clicks = 1) ∧
    (¬ (1 ≤ s.n_clicks ∧ laterThan ev s.last_click PRESS_TIMEOUT = true) →
      s.n_clicks < 2147483647 →
      (mainloop_step toggle s ev).state.n_clicks = s.n_clicks + 1) ∧
    (¬ (1 ≤ s.n_clicks ∧ laterThan ev s.last_click PRESS_TIMEOUT = true) →
      s.n_clicks = 2147483647 →
      (mainloop_step toggle s ev).state.n_clicks = -2147483648) ∧
    (mainloop_step toggle s ev).state.last_click = ev ∧
    (mainloop_step toggle s ev).state.primed = false ∧
    (mainloop_step toggle s ev).state.eraser_on = s.eraser_on ∧
    (mainloop_step toggle s ev).dispatched = none ∧
    (mainloop_step toggle s ev).written =
      (if toggle = false then [⟨Fd.pen, EV_KEY, BTN_TOOL_RUBBER, 1⟩] else []) ∧
    (s.n_clicks = 0 → (mainloop_step toggle s ev).state.n_clicks = 1) := by
  rw [step_press toggle s ev hev]
  refine ⟨?_, ?_, ?_, rfl, rfl, rfl, rfl, rfl, ?_⟩
  · rintro ⟨h1, h2⟩
    have : s.n_clicks ≠ 0 := by omega
    simp [this, h2, wrap32]
  · intro h hlt
    have : ¬ (s.n_clicks ≠ 0 ∧ laterThan ev s.last_click PRESS_TIMEOUT = true) := by
      rintro ⟨h1, h2⟩
      exact h ⟨by omega, h2⟩
    simp only [this, if_false]
    exact wrap32_of_fit _ (by omega) (by omega)
  · intro h heq
    have : ¬ (s.n_clicks ≠ 0 ∧ laterThan ev s.last_click PRESS_TIMEOUT = true) := by
      rintro ⟨h1, h2⟩
      exact h ⟨by omega, h2⟩
    simp only [this, if_false]
    rw [heq]
    decide
  · intro h
    simp [h, wrap32]

/-- Witness for claim C7: a press 0.3 s after the last click of a session with
two clicks. -/
theorem C7_press_witness :
    isPress ⟨10, 300000, EV_KEY, BTN_STYLUS, 1⟩ ∧ (0 : Int) ≤ 2 ∧
    (mainloop_step false ⟨2, true, ⟨10, 0, EV_KEY, BTN_STYLUS, 0⟩, false⟩
      ⟨10, 300000, EV_KEY, BTN_STYLUS, 1⟩).state.n_clicks = 1 :=
  ⟨⟨rfl, rfl, rfl⟩, by decide,
    (C7_press false ⟨2, true, ⟨10, 0, EV_KEY, BTN_STYLUS, 0⟩, false⟩
      ⟨10, 300000, EV_KEY, BTN_STYLUS, 1⟩ ⟨rfl, rfl, rfl⟩ (by decide)).1
      ⟨by decide, by decide!⟩⟩

/-- Claim C8: on a button release, if the release is not later than `last_click`
by more than the window, `primed` becomes true, `last_click` becomes the event
and the click count is unchanged; otherwise the click count becomes 0 and
`primed` false. In either case `eraser_on` is unchanged and no gesture is
dispatched (only the pass-through echo of the non-toggle mode is written). -/
theorem C8_release (toggle : Bool) (s : LoopState) (ev : InputEvent) (hev : isRelease ev) :
    (laterThan ev s.last_click PRESS_TIMEOUT = false →
      (mainloop_step toggle s ev).state.primed = true ∧
      (mainloop_step toggle s ev).state.last_click = ev ∧
      (mainloop_step toggle s ev).state.n_clicks = s.n_clicks) ∧
    (laterThan ev s.last_click PRESS_TIMEOUT = true →
      (mainloop_step toggle s ev).state.n_clicks = 0 ∧
      (mainloop_step toggle s ev).state.primed = false) ∧
    (mainloop_step toggle s ev).state.eraser_on = s.eraser_on ∧
    (mainloop_step toggle s ev).dispatched = none ∧
    (mainloop_step toggle s ev).written =
      (if toggle = false then [⟨Fd.pen, EV_KEY, BTN_TOOL_RUBBER, 0⟩] else []) := by
  rw [step_release toggle s ev hev]
  refine ⟨?_, ?_, ?_, rfl, rfl⟩
  · intro h
    simp [h]
  · intro h
    simp [h]
  · split_ifs <;> rfl

/-- Witness for claim C8: a release 0.05 s after the press. -/
theorem C8_release_witness :
    isRelease ⟨10, 50000, EV_KEY, BTN_STYLUS, 0⟩ ∧
    laterThan ⟨10, 50000, EV_KEY, BTN_STYLUS, 0⟩ (⟨10, 0, EV_KEY, BTN_STYLUS, 1⟩ : InputEvent)
      PRESS_TIMEOUT = false ∧
    (mainloop_step true ⟨1, false, ⟨10, 0, EV_KEY, BTN_STYLUS, 1⟩, false⟩
      ⟨10, 50000, EV_KEY, BTN_STYLUS, 0⟩).state.primed = true :=
  ⟨⟨rfl, rfl, rfl⟩, by decide!,
    ((C8_release true ⟨1, false, ⟨10, 0, EV_KEY, BTN_STYLUS, 1⟩, false⟩
      ⟨10, 50000, EV_KEY, BTN_STYLUS, 0⟩ ⟨rfl, rfl, rfl⟩).1 (by decide!)).1⟩

/-! ## Claims C9 and C10: the comparison at the edge of the window -/

/-- Claim C9 as stated fails: for time stamps 0.7 s and 0.9 s of the same second
the exact difference is 0.2, which is not greater than `delta = 0.2` (the double
is even slightly above 1/5), and yet `laterThan` returns true. -/
theorem C9_counterexample :
    laterThan ⟨100, 900000, EV_SYN, SYN_REPORT, 0⟩ ⟨100, 700000, EV_KEY, BTN_STYLUS, 0⟩
      PRESS_TIMEOUT = true ∧
    exactElapsed ⟨100, 900000, EV_SYN, SYN_REPORT, 0⟩ ⟨100, 700000, EV_KEY, BTN_STYLUS, 0⟩
      = 1 / 5 ∧
    (1 / 5 : ℚ) < PRESS_TIMEOUT := by
  refine ⟨by decide!, by norm_num [exactElapsed], by decide!⟩

/-- Claim C9 (amended): for events with normalised microseconds whose seconds
differ by a value a `long` can hold (the subtraction does not overflow) and every
`delta`, `laterThan` is true exactly when the double `elapsed` it computes is
strictly greater than `delta`, so it is false when the two are equal; the
computed value is within `(|a.sec - b.sec| + 3) / 2^50` of the exact difference
of the time stamps, so the answer is true when the exact difference exceeds
`delta` by more than that and false when it is below `delta` by that much; and
for `delta = 0.2` it is true exactly when the exact difference is greater than
0.2 s, unless that difference is exactly 0.2 s. -/
theorem C9_laterThan (a b : InputEvent) (ha : wellTimed a) (hb : wellTimed b)
    (hf : secondsFit a b) :
    (∀ delta : ℚ, laterThan a b delta = true ↔ elapsed a b > delta) ∧
    laterThan a b (elapsed a b) = false ∧
    |elapsed a b - exactElapsed a b| ≤ (|((a.sec - b.sec : Int) : ℚ)| + 3) / 2 ^ 50 ∧
    (∀ delta : ℚ, exactElapsed a b > delta + (|((a.sec - b.sec : Int) : ℚ)| + 3) / 2 ^ 50 →
      laterThan a b delta = true) ∧
    (∀ delta : ℚ, exactElapsed a b ≤ delta - (|((a.sec - b.sec : Int) : ℚ)| + 3) / 2 ^ 50 →
      laterThan a b delta = false) ∧
    (exactElapsed a b ≠ 1 / 5 →
      (laterThan a b PRESS_TIMEOUT = true ↔ exactElapsed a b > 1 / 5)) := by
  have hE := elapsed_near a b ha hb hf
  have hE' := abs_le.mp hE
  refine ⟨fun delta => by simp [laterThan], by simp [laterThan], hE, ?_, ?_,
    laterThan_iff_exact a b ha hb hf⟩
  · intro delta h
    simp only [laterThan, decide_eq_true_eq]
    linarith [hE'.1]
  · intro delta h
    simp only [laterThan, decide_eq_false_iff_not, not_lt]
    linarith [hE'.2]

/-- Witness for claim C9: two time stamps 0.25 s apart. -/
theorem C9_laterThan_witness :
    wellTimed ⟨100, 300000, EV_SYN, SYN_REPORT, 0⟩ ∧
    wellTimed ⟨100, 50000, EV_KEY, BTN_STYLUS, 0⟩ ∧
    secondsFit ⟨100, 300000, EV_SYN, SYN_REPORT, 0⟩ ⟨100, 50000, EV_KEY, BTN_STYLUS, 0⟩ ∧
    laterThan ⟨100, 300000, EV_SYN, SYN_REPORT, 0⟩ ⟨100, 50000, EV_KEY, BTN_STYLUS, 0⟩
      PRESS_TIMEOUT = true :=
  ⟨by unfold wellTimed; decide, by unfold wellTimed; decide, by decide,
    ((C9_laterThan ⟨100, 300000, EV_SYN, SYN_REPORT, 0⟩ ⟨100, 50000, EV_KEY, BTN_STYLUS, 0⟩
      (by unfold wellTimed; decide) (by unfold wellTimed; decide) (by decide)).2.2.2.2.2
      (by norm_num [exactElapsed])).mpr (by norm_num [exactElapsed])⟩

/-- Claim C10 as stated fails: a press at 100.000000 s and a release at
100.200000 s are exactly the window apart, the computed `elapsed` equals the
double `0.2`, and the release primes the session instead of resetting it. -/
theorem C10_counterexample :
    exactElapsed ⟨100, 200000, EV_KEY, BTN_STYLUS, 0⟩ ⟨100, 0, EV_KEY, BTN_STYLUS, 1⟩ = 1 / 5 ∧
    elapsed ⟨100, 200000, EV_KEY, BTN_STYLUS, 0⟩ ⟨100, 0, EV_KEY, BTN_STYLUS, 1⟩
      = PRESS_TIMEOUT ∧
    (mainloop false initial
      [⟨100, 0, EV_KEY, BTN_STYLUS, 1⟩, ⟨100, 200000, EV_KEY, BTN_STYLUS, 0⟩]).state.primed
        = true ∧
    (mainloop false initial
      [⟨100, 0, EV_KEY, BTN_STYLUS, 1⟩, ⟨100, 200000, EV_KEY, BTN_STYLUS, 0⟩]).state.n_clicks
        = 1 := by
  refine ⟨by norm_num [exactElapsed], by decide!, by decide!, by decide!⟩

/-- Claim C10 (amended): from loop variables with a click count from 0 to
`INT_MAX - 1`, a press followed by a release for which the elapsed time computed
by `laterThan` equals the window exactly is classified as prompt: the release
sets `primed`, keeps the click count of the press (at least 1) and
becomes `last_click`, and nothing is dispatched. -/
theorem C10_boundary_is_prompt (toggle : Bool) (s : LoopState) (p r : InputEvent)
    (hp : isPress p) (hr : isRelease r) (h0 : 0 ≤ s.n_clicks)
    (h1 : s.n_clicks < 2147483647) (he : elapsed r p = PRESS_TIMEOUT) :
    (mainloop toggle s [p, r]).state.primed = true ∧
    (mainloop toggle s [p, r]).state.n_clicks = (mainloop_step toggle s p).state.n_clicks ∧
    1 ≤ (mainloop toggle s [p, r]).state.n_clicks ∧
    (mainloop toggle s [p, r]).state.last_click = r ∧
    (mainloop toggle s [p, r]).dispatched = [] := by
  have hl : laterThan r p PRESS_TIMEOUT = false := by simp [laterThan, he]
  have e1 := step_press toggle s p hp
  have e2 := step_release toggle (mainloop_step toggle s p).state r hr
  have hlast : (mainloop_step toggle s p).state.last_click = p := by rw [e1]
  rw [hlast, if_pos hl] at e2
  have hn : 1 ≤ (mainloop_step toggle s p).state.n_clicks := by
    rw [e1]; dsimp only; unfold wrap32; split_ifs <;> omega
  have hd : (mainloop_step toggle s p).dispatched = none := by rw [e1]
  have hrun : mainloop toggle s [p, r] =
      ⟨{ (mainloop_step toggle s p).state with primed := true, last_click := r },
        (mainloop_step toggle s p).written ++
          ((if toggle = false then [⟨Fd.pen, EV_KEY, BTN_TOOL_RUBBER, 0⟩] else []) ++ []),
        []⟩ := by
    simp only [mainloop, e2, hd]
    rfl
  rw [hrun]
  exact ⟨rfl, rfl, hn, rfl, rfl⟩

/-- Witness for claim C10: a press at 100.000000 s and a release at 100.200000 s. -/
theorem C10_boundary_is_prompt_witness :
    elapsed ⟨100, 200000, EV_KEY, BTN_STYLUS, 0⟩ ⟨100, 0, EV_KEY, BTN_STYLUS, 1⟩
      = PRESS_TIMEOUT ∧
    (mainloop true initial
      [⟨100, 0, EV_KEY, BTN_STYLUS, 1⟩, ⟨100, 200000, EV_KEY, BTN_STYLUS, 0⟩]).state.primed
        = true :=
  ⟨by decide!,
    (C10_boundary_is_prompt true initial ⟨100, 0, EV_KEY, BTN_STYLUS, 1⟩
      ⟨100, 200000, EV_KEY, BTN_STYLUS, 0⟩ ⟨rfl, rfl, rfl⟩ ⟨rfl, rfl, rfl⟩ (by decide)
      (by decide) (by decide!)).1⟩

/-! ## Claim C11: sync reports and the dispatch condition -/

/-- Claim C11: on a sync report, a gesture is dispatched exactly when `primed` is
true and the event is later than `last_click` by more than the window; when this
does not hold the sync report writes nothing and leaves `n_clicks`, `primed`,
`last_click` and `eraser_on` as they are, so that a later sync report that meets
the condition still dispatches the same click count. -/
theorem C11_sync_dispatch_iff (toggle : Bool) (s : LoopState) (ev : InputEvent)
    (hs : isSync ev) :
    ((mainloop_step toggle s ev).dispatched ≠ none ↔
      (s.primed = true ∧ laterThan ev s.last_click PRESS_TIMEOUT = true)) ∧
    (s.primed = true ∧ laterThan ev s.last_click PRESS_TIMEOUT = true →
      (mainloop_step toggle s ev).dispatched = some s.n_clicks) ∧
    (¬ (s.primed = true ∧ laterThan ev s.last_click PRESS_TIMEOUT = true) →
      mainloop_step toggle s ev = ⟨s, [], none⟩ ∧
      ∀ ev2 : InputEvent, isSync ev2 → s.primed = true →
        laterThan ev2 s.last_click PRESS_TIMEOUT = true →
        (mainloop_step toggle (mainloop_step toggle s ev).state ev2).dispatched
          = some s.n_clicks) := by
  have hdis : s.primed = true ∧ laterThan ev s.last_click PRESS_TIMEOUT = true →
      (mainloop_step toggle s ev).dispatched = some s.n_clicks := by
    rintro ⟨hp, hl⟩
    rw [step_sync_dispatch toggle s ev hp hs hl]
    split_ifs <;> rfl
  have hidle : ¬ (s.primed = true ∧ laterThan ev s.last_click PRESS_TIMEOUT = true) →
      mainloop_step toggle s ev = ⟨s, [], none⟩ := by
    intro h
    apply step_sync_idle toggle s ev hs
    cases hp : s.primed
    · exact Or.inl rfl
    · right
      cases hl : laterThan ev s.last_click PRESS_TIMEOUT
      · rfl
      · exact absurd ⟨hp, hl⟩ h
  refine ⟨⟨?_, ?_⟩, hdis, ?_⟩
  · intro h
    by_contra hc
    rw [hidle hc] at h
    exact h rfl
  · intro h
    rw [hdis h]
    simp
  · intro h
    refine ⟨hidle h, ?_⟩
    intro ev2 hs2 hp hl
    rw [hidle h]
    rw [step_sync_dispatch toggle s ev2 hp hs2 hl]
    split_ifs <;> rfl

/-- Witness for claim C11: a sync report 0.1 s after the release of a primed
session does not dispatch. -/
theorem C11_sync_dispatch_iff_witness :
    isSync ⟨10, 100000, EV_SYN, SYN_REPORT, 0⟩ ∧
    mainloop_step false ⟨2, true, ⟨10, 0, EV_KEY, BTN_STYLUS, 0⟩, false⟩
        ⟨10, 100000, EV_SYN, SYN_REPORT, 0⟩ =
      ⟨⟨2, true, ⟨10, 0, EV_KEY, BTN_STYLUS, 0⟩, false⟩, [], none⟩ :=
  ⟨⟨rfl, rfl⟩,
    ((C11_sync_dispatch_iff false ⟨2, true, ⟨10, 0, EV_KEY, BTN_STYLUS, 0⟩, false⟩
      ⟨10, 100000, EV_SYN, SYN_REPORT, 0⟩ ⟨rfl, rfl⟩).2.2 (by decide!)).1⟩

/-! ## Claim C12: sync markers after the events of a gesture -/

/-- Claim C12 as stated fails: the dispatch that turns the eraser on writes the
single eraser-tool event to the pen device and no sync marker after it. -/
theorem C12_counterexample :
    (mainloop_step true ⟨1, true, ⟨10, 0, EV_KEY, BTN_STYLUS, 0⟩, false⟩
        ⟨10, 300000, EV_SYN, SYN_REPORT, 0⟩).dispatched = some 1 ∧
    (mainloop_step true ⟨1, true, ⟨10, 0, EV_KEY, BTN_STYLUS, 0⟩, false⟩
        ⟨10, 300000, EV_SYN, SYN_REPORT, 0⟩).written =
      [⟨Fd.pen, EV_KEY, BTN_TOOL_RUBBER, 1⟩] ∧
    ¬ eachFollowedBySync
      (mainloop_step true ⟨1, true, ⟨10, 0, EV_KEY, BTN_STYLUS, 0⟩, false⟩
        ⟨10, 300000, EV_SYN, SYN_REPORT, 0⟩).written := by
  refine ⟨by decide!, by decide!, by decide!⟩

/-- Claim C12 (amended): in the events written by an undo or redo dispatch (click
count 2 or more) every event that is not a sync marker is immediately followed
by a `SYN_REPORT` written to the same device, the keyboard; the events written
by an eraser toggle (click count 1 in toggle mode) all go to the pen device and
none of them is a sync marker. -/
theorem C12_sync_after_keys (toggle : Bool) (s : LoopState) (ev : InputEvent)
    (hp : s.primed = true) (hs : isSync ev)
    (hl : laterThan ev s.last_click PRESS_TIMEOUT = true) :
    (2 ≤ s.n_clicks → eachFollowedBySync (mainloop_step toggle s ev).written) ∧
    (s.n_clicks = 1 → toggle = true →
      (mainloop_step toggle s ev).written ≠ [] ∧
      ∀ w ∈ (mainloop_step toggle s ev).written, w.fd = Fd.pen ∧ ¬ isSyncWritten w) := by
  rw [step_sync_dispatch toggle s ev hp hs hl]
  constructor
  · intro h
    have h1 : ¬ s.n_clicks = 1 := by omega
    have h2 : s.n_clicks > 1 := by omega
    rw [if_neg (fun hh => h1 hh.1), if_pos h2]
    dsimp only
    split_ifs <;> decide
  · intro h1 ht
    rw [if_pos ⟨h1, ht⟩]
    dsimp only
    refine ⟨by simp, ?_⟩
    intro w hw
    cases he : s.eraser_on <;> simp [he] at hw
    · subst hw; exact ⟨rfl, by decide⟩
    · rcases hw with rfl | rfl | rfl <;> exact ⟨rfl, by decide⟩

/-- Witness for claim C12: a primed session with two clicks and a sync report
0.3 s after the last click. -/
theorem C12_sync_after_keys_witness :
    laterThan ⟨10, 300000, EV_SYN, SYN_REPORT, 0⟩ (⟨10, 0, EV_KEY, BTN_STYLUS, 0⟩ : InputEvent)
        PRESS_TIMEOUT = true ∧
    eachFollowedBySync
      (mainloop_step false ⟨2, true, ⟨10, 0, EV_KEY, BTN_STYLUS, 0⟩, false⟩
        ⟨10, 300000, EV_SYN, SYN_REPORT, 0⟩).written :=
  ⟨by decide!,
    (C12_sync_after_keys false ⟨2, true, ⟨10, 0, EV_KEY, BTN_STYLUS, 0⟩, false⟩
      ⟨10, 300000, EV_SYN, SYN_REPORT, 0⟩ rfl ⟨rfl, rfl⟩ (by decide!)).1 (by decide)⟩

/-! ## Claims C13 and C14: pen-in-range events and all other events -/

/-- Claim C13: on a pen-in-range event (`EV_KEY`, `BTN_TOOL_PEN`, any value), if
`eraser_on` is true exactly one event is written, the eraser tool with the
value of the event, to the pen device; if `eraser_on` is false nothing is
written. In both cases the loop variables are unchanged. -/
theorem C13_pen_in_range (toggle : Bool) (s : LoopState) (ev : InputEvent)
    (h1 : ev.type = EV_KEY) (h2 : ev.code = BTN_TOOL_PEN) :
    (mainloop_step toggle s ev).state = s ∧
    (mainloop_step toggle s ev).dispatched = none ∧
    (s.eraser_on = true → (mainloop_step toggle s ev).written =
      [⟨Fd.pen, EV_KEY, BTN_TOOL_RUBBER, ev.value⟩]) ∧
    (s.eraser_on = false → (mainloop_step toggle s ev).written = []) := by
  have hc : ¬ (BTN_TOOL_PEN = BTN_STYLUS) := by decide
  have ht : ¬ (EV_KEY = EV_SYN) := by decide
  cases he : s.eraser_on <;>
    simp [mainloop_step, h1, h2, hc, ht, he, writeEventVals]

/-- Witness for claim C13: a pen-in-range event with value 0 while the eraser
is on. -/
theorem C13_pen_in_range_witness :
    (mainloop_step true ⟨0, false, ⟨10, 0, EV_KEY, BTN_STYLUS, 0⟩, true⟩
        ⟨12, 0, EV_KEY, BTN_TOOL_PEN, 0⟩).written =
      [⟨Fd.pen, EV_KEY, BTN_TOOL_RUBBER, 0⟩] :=
  (C13_pen_in_range true ⟨0, false, ⟨10, 0, EV_KEY, BTN_STYLUS, 0⟩, true⟩
    ⟨12, 0, EV_KEY, BTN_TOOL_PEN, 0⟩ rfl rfl).2.2.1 rfl

/-- Claim C14 as stated fails: with toggle mode off, a stylus-button event of
value 2 matches none of the four rules and yet the pass-through eraser-tool
event is written for it. -/
theorem C14_counterexample :
    ¬ isPress ⟨10, 0, EV_KEY, BTN_STYLUS, 2⟩ ∧ ¬ isRelease ⟨10, 0, EV_KEY, BTN_STYLUS, 2⟩ ∧
    ¬ isSync ⟨10, 0, EV_KEY, BTN_STYLUS, 2⟩ ∧
    (⟨10, 0, EV_KEY, BTN_STYLUS, 2⟩ : InputEvent).code ≠ BTN_TOOL_PEN ∧
    (mainloop_step false initial ⟨10, 0, EV_KEY, BTN_STYLUS, 2⟩).written =
      [⟨Fd.pen, EV_KEY, BTN_TOOL_RUBBER, 2⟩] := by
  refine ⟨by decide, by decide, by decide, by decide, by decide⟩

/-- Claim C14 (amended): an event that is not a button press, not a button
release, not a sync report meeting the dispatch condition and not a pen-in-range
event while `eraser_on` leaves the loop variables unchanged and dispatches
nothing; it writes nothing, except that with toggle mode off a stylus-button
event (of a value other than 0 and 1) still writes the pass-through eraser-tool
event with its value. -/
theorem C14_other_events (toggle : Bool) (s : LoopState) (ev : InputEvent)
    (h1 : ¬ isPress ev) (h2 : ¬ isRelease ev)
    (h3 : ¬ (isSync ev ∧ s.primed = true ∧ laterThan ev s.last_click PRESS_TIMEOUT = true))
    (h4 : ¬ (s.eraser_on = true ∧ ev.type = EV_KEY ∧ ev.code = BTN_TOOL_PEN)) :
    (mainloop_step toggle s ev).state = s ∧
    (mainloop_step toggle s ev).dispatched = none ∧
    (mainloop_step toggle s ev).written =
      (if toggle = false ∧ ev.type = EV_KEY ∧ ev.code = BTN_STYLUS then
        [⟨Fd.pen, EV_KEY, BTN_TOOL_RUBBER, ev.value⟩] else []) ∧
    (toggle = true ∨ ¬ (ev.type = EV_KEY ∧ ev.code = BTN_STYLUS) →
      (mainloop_step toggle s ev).written = []) := by
  by_cases hb : ev.type = EV_KEY ∧ ev.code = BTN_STYLUS
  · have hv1 : ¬ ev.value = 1 := fun h => h1 ⟨hb.1, hb.2, h⟩
    have hv0 : ¬ ev.value = 0 := fun h => h2 ⟨hb.1, hb.2, h⟩
    have hstep : mainloop_step toggle s ev =
        ⟨s, if toggle = false then [⟨Fd.pen, EV_KEY, BTN_TOOL_RUBBER, ev.value⟩] else [],
          none⟩ := by
      simp only [mainloop_step, if_pos hb, if_neg hv1, if_neg hv0, writeEventVals]
    rw [hstep]
    refine ⟨rfl, rfl, ?_, ?_⟩
    · cases toggle <;> simp [hb]
    · rintro (h | h)
      · simp [h]
      · exact absurd hb h
  · have hd : ¬ (s.primed = true ∧ ev.type = EV_SYN ∧ ev.code = SYN_REPORT ∧
        laterThan ev s.last_click PRESS_TIMEOUT = true) :=
      fun h => h3 ⟨⟨h.2.1, h.2.2.1⟩, h.1, h.2.2.2⟩
    have hstep : mainloop_step toggle s ev = ⟨s, [], none⟩ := by
      simp only [mainloop_step, if_neg hb, if_neg hd, if_neg h4]
    rw [hstep]
    refine ⟨rfl, rfl, ?_, fun _ => rfl⟩
    rw [if_neg (fun h => hb h.2)]

/-- Witness for claim C14: an event of another type (`EV_ABS`, 3) read in the
initial state. -/
theorem C14_other_events_witness :
    ¬ isPress ⟨10, 0, 3, 0, 5⟩ ∧ ¬ isRelease ⟨10, 0, 3, 0, 5⟩ ∧
    (mainloop_step false initial ⟨10, 0, 3, 0, 5⟩).state = initial ∧
    (mainloop_step false initial ⟨10, 0, 3, 0, 5⟩).written = [] :=
  ⟨by decide, by decide,
    (C14_other_events false initial ⟨10, 0, 3, 0, 5⟩ (by decide) (by decide)
      (by decide) (by decide)).1,
    (C14_other_events false initial ⟨10, 0, 3, 0, 5⟩ (by decide) (by decide)
      (by decide) (by decide)).2.2.2 (Or.inr (by decide))⟩

/-! ## Claim C15: a single click with toggle mode off -/

/-- Claim C15: a dispatch with a click count of 1 and toggle mode off writes no
event to either device and leaves `eraser_on` unchanged. -/
theorem C15_single_click_no_toggle (s : LoopState) (ev : InputEvent)
    (hp : s.primed = true) (hs : isSync ev)
    (hl : laterThan ev s.last_click PRESS_TIMEOUT = true) (h1 : s.n_clicks = 1) :
    (mainloop_step false s ev).dispatched = some 1 ∧
    (mainloop_step false s ev).written = [] ∧
    (mainloop_step false s ev).state.eraser_on = s.eraser_on := by
  rw [step_sync_dispatch false s ev hp hs hl]
  have h2 : ¬ s.n_clicks > 1 := by omega
  rw [if_neg (fun hh => Bool.noConfusion hh.2), if_neg h2, h1]
  exact ⟨rfl, rfl, rfl⟩

/-- Witness for claim C15: a primed session with one click and a sync report
0.3 s after the release. -/
theorem C15_single_click_no_toggle_witness :
    laterThan ⟨10, 300000, EV_SYN, SYN_REPORT, 0⟩ (⟨10, 0, EV_KEY, BTN_STYLUS, 0⟩ : InputEvent)
        PRESS_TIMEOUT = true ∧
    (mainloop_step false ⟨1, true, ⟨10, 0, EV_KEY, BTN_STYLUS, 0⟩, false⟩
        ⟨10, 300000, EV_SYN, SYN_REPORT, 0⟩).written = [] :=
  ⟨by decide!,
    (C15_single_click_no_toggle ⟨1, true, ⟨10, 0, EV_KEY, BTN_STYLUS, 0⟩, false⟩
      ⟨10, 300000, EV_SYN, SYN_REPORT, 0⟩ rfl ⟨rfl, rfl⟩ (by decide!) rfl).2.1⟩

/-! ## Claim C16: the first event and the zero time stamp -/

/-- Claim C16 as stated fails: a release stamped 0.1 s (non-negative, not zero)
is not later than the zero `last_click` by more than the window, and read first
it is treated as prompt: it primes the session. -/
theorem C16_counterexample :
    (0 : Int) ≤ (⟨0, 100000, EV_KEY, BTN_STYLUS, 0⟩ : InputEvent).sec ∧
    (0 : Int) ≤ (⟨0, 100000, EV_KEY, BTN_STYLUS, 0⟩ : InputEvent).usec ∧
    (⟨0, 100000, EV_KEY, BTN_STYLUS, 0⟩ : InputEvent).usec ≠ 0 ∧
    laterThan ⟨0, 100000, EV_KEY, BTN_STYLUS, 0⟩ initial.last_click PRESS_TIMEOUT = false ∧
    (mainloop_step true initial ⟨0, 100000, EV_KEY, BTN_STYLUS, 0⟩).state.primed = true := by
  refine ⟨by decide, by decide, by decide, by decide!, by decide!⟩

/-- Claim C16 (amended): an event with a non-negative time stamp of more than
0.2 s (one second or more, or more than 200000 microseconds; microseconds
normalised, seconds a value a `long` can hold) is later than the zero `last_click` by more than the window, so a
release read first with such a stamp is not treated as prompt: it leaves
`n_clicks = 0` and `primed = false`. A press read first gives a click count of 1
whatever its time stamp. -/
theorem C16_first_event (toggle : Bool) (e : InputEvent) (hw : wellTimed e)
    (h0 : 0 ≤ e.sec) (h1 : e.sec < 9223372036854775808)
    (hlate : 1 ≤ e.sec ∨ 200000 < e.usec) :
    laterThan e initial.last_click PRESS_TIMEOUT = true ∧
    (isRelease e → (mainloop_step toggle initial e).state.n_clicks = 0 ∧
      (mainloop_step toggle initial e).state.primed = false) ∧
    (∀ p : InputEvent, isPress p → (mainloop_step toggle initial p).state.n_clicks = 1) := by
  have hz : wellTimed initial.last_click := by decide
  have hx : exactElapsed e initial.last_click > 1 / 5 := by
    obtain ⟨hu0, hu1⟩ := hw
    have e1 : exactElapsed e initial.last_click = (e.sec : ℚ) + (e.usec : ℚ) / 1000000 := by
      simp [exactElapsed, initial]
    rw [e1]
    have hs0 : (0 : ℚ) ≤ e.sec := by exact_mod_cast h0
    have hu0q : (0 : ℚ) ≤ e.usec := by exact_mod_cast hu0
    rcases hlate with h | h
    · have : (1 : ℚ) ≤ e.sec := by exact_mod_cast h
      have : (0 : ℚ) ≤ (e.usec : ℚ) / 1000000 := by positivity
      linarith
    · have : (200000 : ℚ) < e.usec := by exact_mod_cast h
      have : (1 : ℚ) / 5 < (e.usec : ℚ) / 1000000 := by
        rw [lt_div_iff₀ (by norm_num)]; linarith
      linarith
  have hf : secondsFit e initial.last_click := by
    have hz0 : initial.last_click.sec = 0 := rfl
    unfold secondsFit
    rw [hz0]
    omega
  have hl := later_of_exact e initial.last_click hw hz hf hx
  refine ⟨hl, ?_, ?_⟩
  · intro hr
    rw [step_release toggle initial e hr]
    have : ¬ (laterThan e initial.last_click PRESS_TIMEOUT = false) := by
      rw [hl]; exact Bool.noConfusion
    rw [if_neg this]
    exact ⟨rfl, rfl⟩
  · intro p hp
    rw [step_press toggle initial p hp]
    simp [initial, wrap32]

/-- Witness for claim C16: a release stamped 0.3 s. -/
theorem C16_first_event_witness :
    wellTimed ⟨0, 300000, EV_KEY, BTN_STYLUS, 0⟩ ∧
    laterThan ⟨0, 300000, EV_KEY, BTN_STYLUS, 0⟩ initial.last_click PRESS_TIMEOUT = true :=
  ⟨by decide,
    (C16_first_event true ⟨0, 300000, EV_KEY, BTN_STYLUS, 0⟩ (by decide) (by decide)
      (by decide) (Or.inr (by decide))).1⟩

/-! ## Claim C17: the eraser latch with toggle mode off -/

/-- With toggle mode off an iteration of the loop never changes `eraser_on`. -/
theorem step_eraser_toggle_off (s : LoopState) (ev : InputEvent) :
    (mainloop_step false s ev).state.eraser_on = s.eraser_on := by
  unfold mainloop_step
  split_ifs <;> first | rfl | simp_all

/-- With toggle mode off a run of the loop never changes `eraser_on`. -/
theorem mainloop_eraser_toggle_off : ∀ (es : List InputEvent) (s : LoopState),
    (mainloop false s es).state.eraser_on = s.eraser_on := by
  intro es
  induction es with
  | nil => intro s; rfl
  | cons e es ih =>
    intro s
    simp only [mainloop]
    rw [ih, step_eraser_toggle_off]

/-- Claim C17: with toggle mode off, `eraser_on` is false in every state reached
from the initial loop variables by a finite sequence of events, and a
pen-in-range event read in such a state writes nothing. -/
theorem C17_eraser_off_without_toggle (es : List InputEvent) (ev : InputEvent)
    (h1 : ev.type = EV_KEY) (h2 : ev.code = BTN_TOOL_PEN) :
    (mainloop false initial es).state.eraser_on = false ∧
    (mainloop_step false (mainloop false initial es).state ev).written = [] := by
  have he : (mainloop false initial es).state.eraser_on = false := by
    rw [mainloop_eraser_toggle_off]; rfl
  refine ⟨he, ?_⟩
  have hc : ¬ (BTN_TOOL_PEN = BTN_STYLUS) := by decide
  have ht : ¬ (EV_KEY = EV_SYN) := by decide
  simp [mainloop_step, h1, h2, hc, ht, he]

/-- Witness for claim C17: a click, its dispatch, and a pen-in-range event. -/
theorem C17_eraser_off_without_toggle_witness :
    (mainloop false initial
      [⟨100, 0, EV_KEY, BTN_STYLUS, 1⟩, ⟨100, 50000, EV_KEY, BTN_STYLUS, 0⟩,
       ⟨100, 300000, EV_SYN, SYN_REPORT, 0⟩]).state.eraser_on = false ∧
    (mainloop_step false (mainloop false initial
      [⟨100, 0, EV_KEY, BTN_STYLUS, 1⟩, ⟨100, 50000, EV_KEY, BTN_STYLUS, 0⟩,
       ⟨100, 300000, EV_SYN, SYN_REPORT, 0⟩]).state
      ⟨101, 0, EV_KEY, BTN_TOOL_PEN, 1⟩).written = [] :=
  C17_eraser_off_without_toggle
    [⟨100, 0, EV_KEY, BTN_STYLUS, 1⟩, ⟨100, 50000, EV_KEY, BTN_STYLUS, 0⟩,
     ⟨100, 300000, EV_SYN, SYN_REPORT, 0⟩] ⟨101, 0, EV_KEY, BTN_TOOL_PEN, 1⟩ rfl rfl

/-! ## Claim C18: the pass-through of button events -/

/-- Claim C18: on a stylus-button event (`EV_KEY`, `BTN_STYLUS`) of any value,
with toggle mode off exactly one event is written, the eraser tool with the
value of the event, to the pen device; with toggle mode on nothing is written. -/
theorem C18_button_echo (toggle : Bool) (s : LoopState) (ev : InputEvent)
    (h1 : ev.type = EV_KEY) (h2 : ev.code = BTN_STYLUS) :
    (toggle = false → (mainloop_step toggle s ev).written =
      [⟨Fd.pen, EV_KEY, BTN_TOOL_RUBBER, ev.value⟩]) ∧
    (toggle = true → (mainloop_step toggle s ev).written = []) ∧
    (mainloop_step toggle s ev).dispatched = none := by
  have hb : ev.type = EV_KEY ∧ ev.code = BTN_STYLUS := ⟨h1, h2⟩
  have hw : (mainloop_step toggle s ev).written =
        (if toggle = false then [⟨Fd.pen, EV_KEY, BTN_TOOL_RUBBER, ev.value⟩] else []) ∧
      (mainloop_step toggle s ev).dispatched = none := by
    simp only [mainloop_step, if_pos hb, writeEventVals]
    split_ifs <;> exact ⟨rfl, rfl⟩
  refine ⟨?_, ?_, hw.2⟩
  · intro ht
    rw [hw.1, if_pos ht]
  · intro ht
    rw [hw.1, ht]
    rfl

/-- Witness for claim C18: a button event of value 2 with toggle mode off. -/
theorem C18_button_echo_witness :
    (mainloop_step false initial ⟨10, 0, EV_KEY, BTN_STYLUS, 2⟩).written =
      [⟨Fd.pen, EV_KEY, BTN_TOOL_RUBBER, 2⟩] :=
  (C18_button_echo false initial ⟨10, 0, EV_KEY, BTN_STYLUS, 2⟩ rfl rfl).1 rfl

/-! ## Claim C19: the command line -/

/-- Two characters with the same code are equal. -/
theorem char_eq_of_toNat_eq (a b : Char) (h : a.toNat = b.toNat) : a = b :=
  Char.ext (UInt32.eq_of_val_eq (Fin.ext h))

/-- For a string `p` without NUL, `strncmp(a, p, strlen(p))` is 0 exactly when
`a` begins with `p`. -/
theorem strncmp_eq_zero_iff (p : List Char) (hp : ∀ c ∈ p, c.toNat ≠ 0) :
    ∀ a : List Char, strncmp a p p.length = 0 ↔ List.IsPrefix p a := by
  induction p with
  | nil => intro a; simp [strncmp]
  | cons b p ih =>
    intro a
    have hb : b.toNat ≠ 0 := hp b (List.mem_cons_self b p)
    have ih2 := ih (fun c hc => hp c (List.mem_cons_of_mem b hc))
    cases a with
    | nil =>
      simp only [strncmp, List.length_cons, List.prefix_nil]
      constructor
      · intro h; omega
      · intro h; exact absurd h (List.cons_ne_nil b p)
    | cons c a =>
      simp only [strncmp, List.length_cons, List.cons_prefix_cons]
      by_cases hcb : c = b
      · subst hcb
        rw [if_pos rfl, ih2 a]
        simp
      · rw [if_neg hcb]
        constructor
        · intro h
          exact absurd (char_eq_of_toNat_eq c b (by omega)) hcb
        · intro h
          exact absurd h.1.symm hcb

theorem beginsWith_toggle_iff (arg : String) :
    strncmp arg.toList "--toggle".toList 8 = 0 ↔ beginsWith "--toggle" arg :=
  strncmp_eq_zero_iff "--toggle".toList (by decide) arg.toList

theorem beginsWith_verbose_iff (arg : String) :
    strncmp arg.toList "--verbose".toList 9 = 0 ↔ beginsWith "--verbose" arg :=
  strncmp_eq_zero_iff "--verbose".toList (by decide) arg.toList

theorem beginsWith_v_iff (arg : String) :
    strncmp arg.toList "-v".toList 2 = 0 ↔ beginsWith "-v" arg :=
  strncmp_eq_zero_iff "-v".toList (by decide) arg.toList

/-- An argument that begins with `--toggle` begins neither with `--verbose` nor
with `-v`. -/
theorem beginsWith_toggle_not_verbose (arg : String) (h : beginsWith "--toggle" arg) :
    ¬ (beginsWith "--verbose" arg ∨ beginsWith "-v" arg) := by
  obtain ⟨t, ht⟩ := h
  rintro (⟨u, hu⟩ | ⟨u, hu⟩)
  · rw [← ht] at hu
    simp [String.toList] at hu
  · rw [← ht] at hu
    simp [String.toList] at hu

/-- The body of the argument loop in terms of the beginning of the argument. -/
theorem main_arg_eq (o : Options) (arg : String) :
    main_arg o arg =
      if beginsWith "--toggle" arg then { o with toggle_mode := true }
      else if beginsWith "--verbose" arg ∨ beginsWith "-v" arg then
        { o with verbose := o.verbose + 1 }
      else { o with unknown := o.unknown ++ [arg] } := by
  unfold main_arg
  simp only [beginsWith_toggle_iff, beginsWith_verbose_iff, beginsWith_v_iff]

/-- The argument loop from any starting point. -/
theorem main_arg_foldl (l : List String) : ∀ o : Options,
    (l.foldl main_arg o).toggle_mode =
      (o.toggle_mode || l.any (fun a => decide (beginsWith "--toggle" a))) ∧
    (l.foldl main_arg o).verbose = o.verbose +
      (l.countP (fun a => decide (beginsWith "--verbose" a ∨ beginsWith "-v" a)) : Nat) ∧
    (l.foldl main_arg o).unknown = o.unknown ++
      l.filter (fun a => decide (¬ beginsWith "--toggle" a ∧ ¬ beginsWith "--verbose" a ∧
        ¬ beginsWith "-v" a)) := by
  induction l with
  | nil => intro o; simp
  | cons a l ih =>
    intro o
    simp only [List.foldl_cons]
    obtain ⟨i1, i2, i3⟩ := ih (main_arg o a)
    rw [i1, i2, i3, main_arg_eq]
    by_cases ht : beginsWith "--toggle" a
    · have hv := beginsWith_toggle_not_verbose a ht
      have hv1 : ¬ beginsWith "--verbose" a := fun h => hv (Or.inl h)
      have hv2 : ¬ beginsWith "-v" a := fun h => hv (Or.inr h)
      simp [ht, hv1, hv2]
    · by_cases hv : beginsWith "--verbose" a ∨ beginsWith "-v" a
      · rw [if_neg ht, if_pos hv]
        refine ⟨by simp [ht], ?_, ?_⟩
        · rw [List.countP_cons_of_pos _ _ (by simpa using hv)]
          push_cast
          ring
        · rw [List.filter_cons_of_neg]
          intro h
          simp only [decide_eq_true_eq] at h
          rcases hv with h1 | h1
          · exact h.2.1 h1
          · exact h.2.2 h1
      · rw [if_neg ht, if_neg hv]
        have hv1 : ¬ beginsWith "--verbose" a := fun h => hv (Or.inl h)
        have hv2 : ¬ beginsWith "-v" a := fun h => hv (Or.inr h)
        simp [ht, hv1, hv2]

/-- Claim C19 as stated fails: `--toggles` is not exactly `--toggle` and `-vv` is
not exactly `-v`, and yet they enable toggle mode and raise the verbosity to 1,
and neither is reported as unknown. -/
theorem C19_counterexample :
    (main_args ["RMStylusButton", "--toggles", "-vv"]).toggle_mode = true ∧
    ¬ (∃ a ∈ ["--toggles", "-vv"], a = "--toggle") ∧
    (main_args ["RMStylusButton", "--toggles", "-vv"]).verbose = 1 ∧
    List.countP (fun a => decide (a = "--verbose" ∨ a = "-v")) ["--toggles", "-vv"] = 0 ∧
    (main_args ["RMStylusButton", "--toggles", "-vv"]).unknown = [] := by
  refine ⟨by decide, by decide, by decide, by decide, by decide⟩

/-- Claim C19 (amended): for every argument vector, toggle mode is enabled if and
only if some argument after `argv[0]` begins with `--toggle`; the verbosity is
the number of arguments that begin with `--verbose` or with `-v`; the arguments
reported as unknown are exactly the others, in order, and such an argument
changes neither toggle mode nor verbosity. -/
theorem C19_arguments (argv : List String) :
    ((main_args argv).toggle_mode = true ↔
      ∃ a ∈ argv.drop 1, beginsWith "--toggle" a) ∧
    (main_args argv).verbose =
      ((argv.drop 1).countP
        (fun a => decide (beginsWith "--verbose" a ∨ beginsWith "-v" a)) : Nat) ∧
    (main_args argv).unknown =
      (argv.drop 1).filter (fun a => decide (¬ beginsWith "--toggle" a ∧
        ¬ beginsWith "--verbose" a ∧ ¬ beginsWith "-v" a)) ∧
    (∀ (o : Options) (arg : String), ¬ beginsWith "--toggle" arg →
      ¬ beginsWith "--verbose" arg → ¬ beginsWith "-v" arg →
      main_arg o arg = { o with unknown := o.unknown ++ [arg] }) := by
  obtain ⟨h1, h2, h3⟩ := main_arg_foldl (argv.drop 1)
    { toggle_mode := false, verbose := 0, unknown := [] }
  unfold main_args
  refine ⟨?_, ?_, ?_, ?_⟩
  · rw [h1]
    simp
  · rw [h2]
    simp
  · rw [h3]
    simp
  · intro o arg n1 n2 n3
    rw [main_arg_eq, if_neg n1, if_neg (fun h => h.elim n2 n3)]

end RMStylusButton
